import Mathlib

/-!
Verification of an event-driven datacenter network simulator against its
natural-language specification.  The development shallowly embeds the core of
the simulator: the packet model (`packet.rs`), the drop-tail queue
(`node/switch/drop_tail_queue.rs`), the go-back-N flows (`flow/go_back_n.rs`),
link PFC thresholds (`node/mod.rs`), the NACK switch
(`node/switch/nack_switch.rs`), and the discrete-event executor together with
the standard-library binary heap it relies on (`event.rs`).

Machine integers (`u32`, `u64`) are modelled as `Nat`; arithmetic is exact
except where the source performs an explicit truncating cast (`as u32`,
modelled as `% 2^32`) or where a wrapping multiplication is load-bearing for a
claim (`% 2^64`).  Rust panics (`assert!`, `unwrap`, `unimplemented!`) are
modelled as `Except.error`; `Option`-returning fallible operations return
`Option`.
-/

namespace Sim

/-- Packet headers, from `packet.rs` (`PacketHeader`).  `from_` renders Rust's
field `from`, which is a reserved word in Lean. -/
structure PacketHeader where
  flow : Nat
  from_ : Nat
  to_ : Nat
deriving DecidableEq, Repr

/-- The packet tagged union, from `packet.rs` (`Packet`). -/
inductive Packet where
  | Data (hdr : PacketHeader) (seq : Nat) (length : Nat)
  | Ack (hdr : PacketHeader) (cumulative_acked_seq : Nat)
  | Nack (hdr : PacketHeader) (nacked_seq : Nat)
  | Pause (a : Nat) (b : Nat)
  | Resume (a : Nat) (b : Nat)
deriving DecidableEq, Repr

/-- `PacketHeader::get_size_bytes`: headers are 40 bytes. -/
def PacketHeader.get_size_bytes (_ : PacketHeader) : Nat := 40

/-- `Packet::get_size_bytes`: wire size of a packet. -/
def Packet.get_size_bytes : Packet → Nat
  | .Pause _ _ => 9
  | .Resume _ _ => 9
  | .Nack hdr _ => hdr.get_size_bytes
  | .Ack hdr _ => hdr.get_size_bytes
  | .Data hdr _ length => length + hdr.get_size_bytes

/-- Unidirectional link metadata, from `node/mod.rs` (`Link`). -/
structure Link where
  propagation_delay : Nat
  bandwidth_bps : Nat
  pfc_enabled : Bool
  from_ : Nat
  to_ : Nat
deriving DecidableEq, Repr, Inhabited

/-- Drop-tail queue state, from `node/switch/drop_tail_queue.rs`
(`DropTailQueue`). -/
structure DropTailQueue where
  limit_bytes : Nat
  link : Link
  pkts : List Packet
  forced_next : Option Packet
  active : Bool
  paused : Bool
deriving DecidableEq, Repr, Inhabited

namespace DropTailQueue

/-- `DropTailQueue::new`. -/
def new (limit_bytes : Nat) (link : Link) : DropTailQueue :=
  { limit_bytes := limit_bytes
    link := link
    pkts := []
    forced_next := none
    active := false
    paused := false }

/-- `DropTailQueue::occupancy_bytes`: sum of wire sizes of the FIFO packets. -/
def occupancy_bytes (q : DropTailQueue) : Nat :=
  (q.pkts.map Packet.get_size_bytes).sum

/-- `Queue::headroom` for `DropTailQueue` (`limit_bytes - occupancy_bytes`,
truncated subtraction). -/
def headroom (q : DropTailQueue) : Nat :=
  q.limit_bytes - q.occupancy_bytes

/-- `Queue::enqueue` for `DropTailQueue`: drop (`none`) when the packet does
not fit, otherwise append to the FIFO and set the active flag. -/
def enqueue (q : DropTailQueue) (p : Packet) : Option Unit × DropTailQueue :=
  if q.occupancy_bytes + p.get_size_bytes > q.limit_bytes then
    (none, q)
  else
    (some (), { q with pkts := q.pkts ++ [p], active := true })

/-- `Queue::force_tx_next` for `DropTailQueue`: store a forced head and set
the active flag. -/
def force_tx_next (q : DropTailQueue) (p : Packet) : Option Unit × DropTailQueue :=
  (some (), { q with forced_next := some p, active := true })

/-- `Queue::dequeue` for `DropTailQueue`: consume the forced head if set,
else pop the FIFO front, clearing the active flag when the FIFO held exactly
one packet. -/
def dequeue (q : DropTailQueue) : Option Packet × DropTailQueue :=
  match q.forced_next with
  | none =>
    match q.pkts with
    | [] => (none, q)
    | [p] => (some p, { q with pkts := [], active := false })
    | p :: rest => (some p, { q with pkts := rest })
  | some p => (some p, { q with forced_next := none })

/-- `Queue::discard_matching` for `DropTailQueue`: keep exactly the FIFO
packets on which the predicate is false; return how many were removed. -/
def discard_matching (q : DropTailQueue) (should_discard : Packet → Bool) :
    Nat × DropTailQueue :=
  let after := q.pkts.filter (fun p => ¬ should_discard p)
  (q.pkts.length - after.length, { q with pkts := after })

/-- `Queue::count_matching` for `DropTailQueue`. -/
def count_matching (q : DropTailQueue) (counter : Packet → Bool) : Nat :=
  (q.pkts.filter counter).length

/-- `Queue::is_active` for `DropTailQueue`. -/
def is_active (q : DropTailQueue) : Bool :=
  q.active && !q.paused

/-- `Queue::set_active` for `DropTailQueue`. -/
def set_active (q : DropTailQueue) (a : Bool) : DropTailQueue :=
  { q with active := a }

/-- `Queue::is_paused` for `DropTailQueue`. -/
def is_paused (q : DropTailQueue) : Bool :=
  q.paused

/-- `Queue::set_paused` for `DropTailQueue`. -/
def set_paused (q : DropTailQueue) (a : Bool) : DropTailQueue :=
  { q with paused := a }

end DropTailQueue

/-- One abstract operation on a drop-tail queue, used to quantify over all
client-visible operation sequences. -/
inductive QOp where
  | enq (p : Packet)
  | deq
  | forceTx (p : Packet)
  | discard (should_discard : Packet → Bool)
  | setPaused (b : Bool)
  | setActive (b : Bool)

/-- Whether an operation is a raw `set_active` call. -/
def QOp.isSetActive : QOp → Bool
  | .setActive _ => true
  | _ => false

/-- Apply one operation to a queue, keeping only the resulting state. -/
def QOp.apply (q : DropTailQueue) : QOp → DropTailQueue
  | .enq p => (q.enqueue p).2
  | .deq => q.dequeue.2
  | .forceTx p => (q.force_tx_next p).2
  | .discard f => (q.discard_matching f).2
  | .setPaused b => q.set_paused b
  | .setActive b => q.set_active b

/-- Run a sequence of queue operations from a given queue state. -/
def runQOps (q : DropTailQueue) (ops : List QOp) : DropTailQueue :=
  ops.foldl QOp.apply q

/-- Every queue operation leaves `limit_bytes` unchanged. -/
lemma QOp.apply_limit_bytes (q : DropTailQueue) (op : QOp) :
    (op.apply q).limit_bytes = q.limit_bytes := by
  cases op with
  | enq p =>
    simp only [QOp.apply, DropTailQueue.enqueue]
    split <;> rfl
  | deq =>
    rcases hq : q.forced_next with _ | p <;>
      rcases hp : q.pkts with _ | ⟨p1, _ | ⟨p2, rest⟩⟩ <;>
      simp [QOp.apply, DropTailQueue.dequeue, hq, hp]
  | forceTx p => rfl
  | discard f => rfl
  | setPaused b => rfl
  | setActive b => rfl

/-- Every queue operation preserves the occupancy bound. -/
lemma QOp.apply_occupancy_le (q : DropTailQueue) (op : QOp)
    (h : q.occupancy_bytes ≤ q.limit_bytes) :
    (op.apply q).occupancy_bytes ≤ (op.apply q).limit_bytes := by
  rw [QOp.apply_limit_bytes]
  cases op with
  | enq p =>
    simp only [QOp.apply, DropTailQueue.enqueue]
    split
    · exact h
    · rename_i hle
      simp only [not_lt] at hle
      simpa [DropTailQueue.occupancy_bytes] using hle
  | deq =>
    rcases hq : q.forced_next with _ | p <;>
      rcases hp : q.pkts with _ | ⟨p1, _ | ⟨p2, rest⟩⟩ <;>
      simp only [QOp.apply, DropTailQueue.dequeue, hq, hp,
        DropTailQueue.occupancy_bytes] at h ⊢ <;>
      simp_all [List.sum_cons] <;> omega
  | forceTx p => exact h
  | discard f =>
    refine le_trans ?_ h
    simp only [QOp.apply, DropTailQueue.discard_matching, DropTailQueue.occupancy_bytes]
    exact List.Sublist.sum_le_sum ((List.filter_sublist q.pkts).map _)
      (fun a _ => Nat.zero_le a)
  | setPaused b => exact h
  | setActive b => exact h

/-- C1.  `enqueue(p)` drops exactly when the packet does not fit
(`occupancy + wire_size(p) > limit_bytes`), otherwise appends the packet and
sets the active flag; consequently, after every sequence of queue operations
starting from an empty queue, the sum of wire sizes of the FIFO's packets is
at most `limit_bytes`. -/
theorem C1_enqueue_drop_iff_and_queue_limit :
    (∀ (q : DropTailQueue) (p : Packet),
      ((q.enqueue p).1 = none ↔ q.occupancy_bytes + p.get_size_bytes > q.limit_bytes) ∧
      ((q.enqueue p).1 ≠ none →
        (q.enqueue p).2 = { q with pkts := q.pkts ++ [p], active := true })) ∧
    (∀ (limit : Nat) (link : Link) (ops : List QOp),
      (runQOps (DropTailQueue.new limit link) ops).occupancy_bytes ≤ limit) := by
  constructor
  · intro q p
    constructor
    · simp only [DropTailQueue.enqueue]
      split <;> rename_i hc <;> simp [hc]
    · simp only [DropTailQueue.enqueue]
      split <;> simp
  · intro limit link ops
    have key : ∀ (qs : List QOp) (q : DropTailQueue),
        q.occupancy_bytes ≤ q.limit_bytes ∧ q.limit_bytes = limit →
        (runQOps q qs).occupancy_bytes ≤ (runQOps q qs).limit_bytes ∧
          (runQOps q qs).limit_bytes = limit := by
      intro qs
      induction qs with
      | nil => intro q h; exact h
      | cons op rest ih =>
        intro q h
        have h1 := QOp.apply_occupancy_le q op h.1
        have h2 := QOp.apply_limit_bytes q op
        exact ih (op.apply q) ⟨h1, h2.trans h.2⟩
    have h0 : (DropTailQueue.new limit link).occupancy_bytes ≤
        (DropTailQueue.new limit link).limit_bytes ∧
        (DropTailQueue.new limit link).limit_bytes = limit := by
      constructor
      · simp [DropTailQueue.new, DropTailQueue.occupancy_bytes]
      · rfl
    have := key ops (DropTailQueue.new limit link) h0
    omega

/-- C1 witness: a concrete instantiation of both conjuncts. -/
theorem C1_witness :
    ((DropTailQueue.new 100 default).enqueue
        (Packet.Data ⟨0, 0, 1⟩ 0 1460)).1 = none ∧
    (runQOps (DropTailQueue.new 100 default)
        [QOp.enq (Packet.Data ⟨0, 0, 1⟩ 0 1460)]).occupancy_bytes ≤ 100 := by
  refine ⟨?_, C1_enqueue_drop_iff_and_queue_limit.2 100 default _⟩
  exact (C1_enqueue_drop_iff_and_queue_limit.1 _ _).1.mpr (by decide)

/-- The one-sided active-flag invariant: whenever a packet is ready to
transmit (non-empty FIFO or a forced head), the raw active flag is set. -/
def activeFlagInv (q : DropTailQueue) : Prop :=
  q.pkts ≠ [] ∨ q.forced_next.isSome → q.active = true

/-- Every queue operation other than a raw `set_active` preserves the
one-sided active-flag invariant. -/
lemma QOp.apply_activeFlagInv (q : DropTailQueue) (op : QOp)
    (hop : op.isSetActive = false) (h : activeFlagInv q) :
    activeFlagInv (op.apply q) := by
  cases op with
  | enq p =>
    simp only [QOp.apply, DropTailQueue.enqueue]
    split
    · exact h
    · intro _; rfl
  | deq =>
    rcases hq : q.forced_next with _ | p <;>
      rcases hp : q.pkts with _ | ⟨p1, _ | ⟨p2, rest⟩⟩ <;>
      simp only [QOp.apply, DropTailQueue.dequeue, hq, hp, activeFlagInv] at h ⊢ <;>
      simp_all
  | forceTx p =>
    intro _; rfl
  | discard f =>
    intro hne
    apply h
    simp only [QOp.apply, DropTailQueue.discard_matching] at hne
    rcases hne with hne | hforced
    · left
      intro hnil
      simp [hnil] at hne
    · right; exact hforced
  | setPaused b =>
    intro hne
    exact h hne
  | setActive b => simp [QOp.isSetActive] at hop

/-- C5 counterexample.  The claimed two-sided invariant "`active` is true iff
a packet is ready and the queue is not paused" is false: consuming a forced
head from an otherwise empty queue leaves the flag set with nothing ready,
`discard_matching` can empty the FIFO without clearing the flag, and a raw
`set_active false` clears the flag with packets still queued. -/
theorem C5_counterexample :
    (let q := runQOps (DropTailQueue.new 15000 default)
      [QOp.forceTx (Packet.Data ⟨0, 0, 1⟩ 0 1460), QOp.deq]
     q.is_active = true ∧ q.active = true ∧ q.pkts = [] ∧ q.forced_next = none ∧
       q.paused = false) ∧
    (let q := runQOps (DropTailQueue.new 15000 default)
      [QOp.enq (Packet.Data ⟨0, 0, 1⟩ 0 1460),
       QOp.discard (fun _ => true)]
     q.is_active = true ∧ q.pkts = [] ∧ q.forced_next = none) ∧
    (let q := runQOps (DropTailQueue.new 15000 default)
      [QOp.enq (Packet.Data ⟨0, 0, 1⟩ 0 1460), QOp.setActive false]
     q.is_active = false ∧ q.pkts ≠ [] ∧ q.paused = false) := by
  refine ⟨⟨?_, ?_, ?_, ?_, ?_⟩, ⟨?_, ?_, ?_⟩, ⟨?_, ?_, ?_⟩⟩ <;> decide

/-- C5 amended.  For every drop-tail queue state reachable from an empty
queue by `enqueue`, `force_tx_next`, `dequeue`, `discard_matching` and
`set_paused` operations (raw `set_active` excluded), if the FIFO is non-empty
or a forced head is set then the active flag is true (the flag is an
over-approximation of readiness; the converse can fail).  Moreover, on a
queue whose flag is set, `dequeue` clears the flag exactly in the source's
case — the FIFO held exactly one packet and no forced head was set — and in
no other case. -/
theorem C5_amended_active_flag :
    (∀ (limit : Nat) (link : Link) (ops : List QOp),
      (∀ op ∈ ops, op.isSetActive = false) →
      (runQOps (DropTailQueue.new limit link) ops).pkts ≠ [] ∨
        (runQOps (DropTailQueue.new limit link) ops).forced_next.isSome →
      (runQOps (DropTailQueue.new limit link) ops).active = true) ∧
    (∀ q : DropTailQueue, q.active = true →
      (q.dequeue.2.active = false ↔
        q.forced_next = none ∧ q.pkts.length = 1)) := by
  constructor
  · intro limit link ops
    have key : ∀ (qs : List QOp) (q : DropTailQueue),
        (∀ op ∈ qs, op.isSetActive = false) → activeFlagInv q →
        activeFlagInv (runQOps q qs) := by
      intro qs
      induction qs with
      | nil => intro q _ h; exact h
      | cons op rest ih =>
        intro q hops h
        exact ih (op.apply q)
          (fun o ho => hops o (List.mem_cons_of_mem _ ho))
          (QOp.apply_activeFlagInv q op (hops op (List.mem_cons_self _ _)) h)
    intro hops
    exact key ops (DropTailQueue.new limit link) hops (by intro h; simp_all [DropTailQueue.new])
  · intro q hact
    rcases hq : q.forced_next with _ | p <;>
      rcases hp : q.pkts with _ | ⟨p1, _ | ⟨p2, rest⟩⟩ <;>
      simp_all [DropTailQueue.dequeue, hq, hp]

/-- C5 amended witness: a concrete reachable state with a queued packet whose
flag is set, and a concrete one-packet dequeue that clears the flag. -/
theorem C5_amended_witness :
    (runQOps (DropTailQueue.new 15000 default)
      [QOp.enq (Packet.Data ⟨0, 0, 1⟩ 0 1460)]).active = true ∧
    ((DropTailQueue.new 15000 default).enqueue
      (Packet.Data ⟨0, 0, 1⟩ 0 1460)).2.dequeue.2.active = false := by
  constructor
  · exact C5_amended_active_flag.1 15000 default _ (by decide) (by left; decide)
  · exact (C5_amended_active_flag.2 _ (by decide)).mpr (by decide)

/-- `FlowInfo`, from `flow/mod.rs`. -/
structure FlowInfo where
  flow_id : Nat
  sender_id : Nat
  dest_id : Nat
  length_bytes : Nat
  max_packet_length : Nat
deriving DecidableEq, Repr, Inhabited

/-- `ReductionType`, from `congcontrol.rs`. -/
inductive ReductionType where
  | Drop
  | Ecn
deriving DecidableEq, Repr

/-- The `CongAlg` capability set from `congcontrol.rs`, over an abstract
congestion-control state type `CC`.  Rust's `on_packet`/`reduction` mutate the
state and return the window; callers in `go_back_n.rs` ignore the returned
window, so the model keeps only the state transition. -/
structure CongAlgOps (CC : Type) where
  cwnd : CC → Nat
  on_packet : CC → Nat → Nat → CC
  reduction : CC → ReductionType → CC

/-- `ConstCwnd` from `congcontrol.rs`: state is the constant window. -/
def constCwndOps : CongAlgOps Nat :=
  { cwnd := fun c => c
    on_packet := fun c _ _ => c
    reduction := fun c _ => c }

/-- `ConstCwnd::new()` returns a window of 10 packets. -/
def constCwndNew : Nat := 10

/-- `GoBackNSender` state, from `flow/go_back_n.rs`. -/
structure GoBackNSender (CC : Type) where
  flow_info : FlowInfo
  start_time : Option Nat
  completion_time : Option Nat
  next_to_send : Nat
  cumulative_acked : Nat
  retx_timeout : Nat
  cong_control : CC
deriving Repr

/-- `GoBackNReceiver` state, from `flow/go_back_n.rs`. -/
structure GoBackNReceiver where
  flow_info : FlowInfo
  cumulative_received : Nat
  start_time : Option Nat
  completion_time : Option Nat
  nack_inflight : Bool
deriving DecidableEq, Repr

/-- The `Data` packet built by `GoBackNSender::maybe_send_more`. -/
def mkData (fi : FlowInfo) (seq len : Nat) : Packet :=
  Packet.Data ⟨fi.flow_id, fi.sender_id, fi.dest_id⟩ seq len

/-- The send loop of `GoBackNSender::maybe_send_more`, parameterised by the
byte window `cwnd = cong_control.cwnd() * max_packet_length` computed before
the loop.  Only `next_to_send` evolves; `fuel` bounds the iteration count and
`none` models non-termination of the source loop (which loops forever when
`max_packet_length = 0`). -/
def msmLoop (fi : FlowInfo) (cwnd : Nat) : Nat → Nat → Nat → Option (List Packet × Nat)
  | 0, _, _ => none
  | fuel + 1, next, cum =>
    if next < cum + cwnd then
      if next + fi.max_packet_length ≤ fi.length_bytes then
        match msmLoop fi cwnd fuel (next + fi.max_packet_length) cum with
        | none => none
        | some (ps, next') => some (mkData fi next fi.max_packet_length :: ps, next')
      else if next < fi.length_bytes then
        some ([mkData fi next (fi.length_bytes - next)], fi.length_bytes)
      else
        some ([], next)
    else
      some ([], next)

namespace GoBackNSender

/-- `GoBackNSender::maybe_send_more`.  Fuel-exhaustion (`error`) corresponds
to source-level non-termination and is ruled out whenever
`max_packet_length ≥ 1`. -/
def maybe_send_more {CC : Type} (ops : CongAlgOps CC) (s : GoBackNSender CC) :
    Except String (List Packet × GoBackNSender CC) :=
  let cwnd := ops.cwnd s.cong_control * s.flow_info.max_packet_length
  match msmLoop s.flow_info cwnd (s.cumulative_acked + cwnd + 2) s.next_to_send
      s.cumulative_acked with
  | none => .error "maybe_send_more: loop does not terminate"
  | some (ps, next') => .ok (ps, { s with next_to_send := next' })

/-- `GoBackNSender::go_back_n`: rewind `next_to_send` and send again. -/
def go_back_n {CC : Type} (ops : CongAlgOps CC) (s : GoBackNSender CC)
    (go_back_to : Nat) : Except String (List Packet × GoBackNSender CC) :=
  maybe_send_more ops { s with next_to_send := go_back_to }

/-- `GoBackNSender::check_timeout`.  `now - retx_timeout` is `u64`
subtraction; since the executor hands non-decreasing times, `now ≥
retx_timeout` in every run, and truncated `Nat` subtraction agrees. -/
def check_timeout {CC : Type} (s : GoBackNSender CC) (now : Nat) : Bool :=
  s.retx_timeout > 0 && s.completion_time.isNone && (now - s.retx_timeout) > 1000000000

/-- `GoBackNSender::got_ack`: the two `Ack` cases (advance or ignore) and the
`Nack` case (reduce and go back).  The `assert_eq!` header checks become
`error` on mismatch.  The returned `Bool` is the "clear my packets" flag. -/
def got_ack {CC : Type} (ops : CongAlgOps CC) (s : GoBackNSender CC)
    (ack : Packet) (time : Nat) :
    Except String (List Packet × Bool × GoBackNSender CC) :=
  match ack with
  | .Ack hdr cumulative_acked_seq =>
    if hdr.flow = s.flow_info.flow_id ∧ hdr.from_ = s.flow_info.dest_id ∧
        hdr.to_ = s.flow_info.sender_id then
      if cumulative_acked_seq > s.cumulative_acked then
        let s := { s with
          cong_control :=
            ops.on_packet s.cong_control (cumulative_acked_seq - s.cumulative_acked) 0,
          cumulative_acked := cumulative_acked_seq }
        if s.cumulative_acked = s.flow_info.length_bytes then
          match s.start_time with
          | none => .error "start_time.unwrap() on None"
          | some st => .ok ([], false, { s with completion_time := some (time - st) })
        else
          (maybe_send_more ops s).map (fun r => (r.1, false, r.2))
      else
        .ok ([], false, s)
    else
      .error "assert_eq! failed in got_ack (Ack)"
  | .Nack hdr nacked_seq =>
    if hdr.flow = s.flow_info.flow_id ∧ hdr.from_ = s.flow_info.dest_id ∧
        hdr.to_ = s.flow_info.sender_id then
      let s := { s with cong_control := ops.reduction s.cong_control .Drop }
      (go_back_n ops s nacked_seq).map (fun r => (r.1, true, r.2))
    else
      .error "assert_eq! failed in got_ack (Nack)"
  | _ => .error "unreachable in got_ack"

/-- `Flow::receive` for `GoBackNSender`: re-anchor the retransmit timeout at
the receive time, then dispatch `Ack`/`Nack` to `got_ack`; `Data` is
unreachable. -/
def receive {CC : Type} (ops : CongAlgOps CC) (s : GoBackNSender CC)
    (time : Nat) (pkt : Packet) :
    Except String (List Packet × Bool × GoBackNSender CC) :=
  match pkt with
  | .Data _ _ _ => .error "unreachable in sender receive"
  | .Ack _ _ => got_ack ops { s with retx_timeout := time } pkt time
  | .Nack _ _ => got_ack ops { s with retx_timeout := time } pkt time
  | _ => .error "unreachable in sender receive"

/-- `Flow::exec` for `GoBackNSender`: set the start time on first poll; if
complete do nothing; on a retransmit timeout re-anchor and go back to
`cumulative_acked` with the clear flag set; otherwise send within the
window. -/
def exec {CC : Type} (ops : CongAlgOps CC) (s : GoBackNSender CC) (time : Nat) :
    Except String (List Packet × Bool × GoBackNSender CC) :=
  let s := if s.start_time.isNone then { s with start_time := some time } else s
  if s.completion_time.isSome then
    .ok ([], false, s)
  else if ¬ check_timeout s time then
    (maybe_send_more ops s).map (fun r => (r.1, false, r.2))
  else
    let cum_ack := s.cumulative_acked
    let s := { s with retx_timeout := time }
    (go_back_n ops s cum_ack).map (fun r => (r.1, true, r.2))

end GoBackNSender

namespace GoBackNReceiver

/-- `GoBackNReceiver::got_data`: in-order data advances
`cumulative_received`, clears `nack_inflight` and answers with one cumulative
ACK (recording completion when the flow finishes); out-of-order data answers
with a single NACK for `cumulative_received` when `nack_inflight` is unset,
and nothing otherwise. -/
def got_data (r : GoBackNReceiver) (data : Packet) (time : Nat) :
    Except String (List Packet × GoBackNReceiver) :=
  let r := if r.start_time.isNone then { r with start_time := some time } else r
  match data with
  | .Data hdr seq length =>
    if hdr.flow = r.flow_info.flow_id ∧ hdr.to_ = r.flow_info.dest_id ∧
        hdr.from_ = r.flow_info.sender_id then
      if seq = r.cumulative_received then
        let r := { r with
          cumulative_received := r.cumulative_received + length,
          nack_inflight := false }
        if r.cumulative_received = r.flow_info.length_bytes then
          match r.start_time with
          | none => .error "start_time.unwrap() on None"
          | some st =>
            .ok ([Packet.Ack ⟨hdr.flow, hdr.to_, hdr.from_⟩ r.cumulative_received],
              { r with completion_time := some (time - st) })
        else
          .ok ([Packet.Ack ⟨hdr.flow, hdr.to_, hdr.from_⟩ r.cumulative_received], r)
      else
        if ¬ r.nack_inflight then
          .ok ([Packet.Nack ⟨hdr.flow, hdr.to_, hdr.from_⟩ r.cumulative_received],
            { r with nack_inflight := true })
        else
          .ok ([], r)
    else
      .error "assert_eq! failed in got_data"
  | _ => .error "unreachable in got_data"

/-- `Flow::receive` for `GoBackNReceiver`: only `Data` is expected. -/
def receive (r : GoBackNReceiver) (time : Nat) (pkt : Packet) :
    Except String (List Packet × Bool × GoBackNReceiver) :=
  match pkt with
  | .Data _ _ _ => (got_data r pkt time).map (fun x => (x.1, false, x.2))
  | _ => .error "unreachable in receiver receive"

end GoBackNReceiver

/-- The send loop terminates whenever packets are at least one byte and the
fuel covers the remaining window. -/
lemma msmLoop_total (fi : FlowInfo) (cwnd : Nat) (hmpl : 1 ≤ fi.max_packet_length) :
    ∀ (fuel next cum : Nat), cum + cwnd < next + fuel → 1 ≤ fuel →
    ∃ r, msmLoop fi cwnd fuel next cum = some r := by
  intro fuel
  induction fuel with
  | zero => intro next cum _ h; omega
  | succ fuel ih =>
    intro next cum h _
    rw [msmLoop]
    split
    · split
      · rename_i hwin hfull
        obtain ⟨⟨ps1, n1⟩, hr⟩ := ih (next + fi.max_packet_length) cum (by omega) (by omega)
        rw [hr]
        exact ⟨_, rfl⟩
      · split
        · exact ⟨_, rfl⟩
        · exact ⟨_, rfl⟩
    · exact ⟨_, rfl⟩

/-- The send loop never moves `next_to_send` backwards. -/
lemma msmLoop_mono (fi : FlowInfo) (cwnd : Nat) :
    ∀ (fuel next cum : Nat) (ps : List Packet) (next' : Nat),
    msmLoop fi cwnd fuel next cum = some (ps, next') → next ≤ next' := by
  intro fuel
  induction fuel with
  | zero => intro next cum ps next' h; simp [msmLoop] at h
  | succ fuel ih =>
    intro next cum ps next' h
    rw [msmLoop] at h
    split at h
    · split at h
      · rcases hrec : msmLoop fi cwnd fuel (next + fi.max_packet_length) cum with _ | ⟨ps1, n1⟩ <;>
          rw [hrec] at h
        · exact absurd h (by simp)
        · have := ih (next + fi.max_packet_length) cum ps1 n1 hrec
          simp only [Option.some.injEq, Prod.mk.injEq] at h
          omega
      · split at h <;> simp only [Option.some.injEq, Prod.mk.injEq] at h <;> omega
    · simp only [Option.some.injEq, Prod.mk.injEq] at h
      omega

/-- The send loop never runs `next_to_send` past `length_bytes`. -/
lemma msmLoop_le_length (fi : FlowInfo) (cwnd : Nat) :
    ∀ (fuel next cum : Nat) (ps : List Packet) (next' : Nat),
    msmLoop fi cwnd fuel next cum = some (ps, next') →
    next ≤ fi.length_bytes → next' ≤ fi.length_bytes := by
  intro fuel
  induction fuel with
  | zero => intro next cum ps next' h; simp [msmLoop] at h
  | succ fuel ih =>
    intro next cum ps next' h hle
    rw [msmLoop] at h
    split at h
    · split at h
      · rcases hrec : msmLoop fi cwnd fuel (next + fi.max_packet_length) cum with _ | ⟨ps1, n1⟩ <;>
          rw [hrec] at h
        · exact absurd h (by simp)
        · rename_i hfull
          have := ih (next + fi.max_packet_length) cum ps1 n1 hrec hfull
          simp only [Option.some.injEq, Prod.mk.injEq] at h
          omega
      · split at h <;> simp only [Option.some.injEq, Prod.mk.injEq] at h <;> omega
    · simp only [Option.some.injEq, Prod.mk.injEq] at h
      omega

/-- With `next_to_send` aligned to the window base (`next = cum + k·mpl`) and
the window a whole number of packets, the send loop never exceeds the window
(unless it already started beyond it). -/
lemma msmLoop_window (fi : FlowInfo) (cwnd : Nat) (hmpl : 1 ≤ fi.max_packet_length)
    (c : Nat) (hc : cwnd = c * fi.max_packet_length) :
    ∀ (fuel next cum : Nat) (ps : List Packet) (next' : Nat),
    msmLoop fi cwnd fuel next cum = some (ps, next') →
    (∃ k, next = cum + k * fi.max_packet_length) →
    next' ≤ max next (cum + cwnd) := by
  intro fuel
  induction fuel with
  | zero => intro next cum ps next' h; simp [msmLoop] at h
  | succ fuel ih =>
    intro next cum ps next' h halign
    obtain ⟨k, hk⟩ := halign
    rw [msmLoop] at h
    split at h
    · rename_i hwin
      have hkc : k < c := by
        by_contra hge
        push_neg at hge
        have : c * fi.max_packet_length ≤ k * fi.max_packet_length :=
          Nat.mul_le_mul_right _ hge
        omega
      have hstep : next + fi.max_packet_length ≤ cum + cwnd := by
        have : (k + 1) * fi.max_packet_length ≤ c * fi.max_packet_length :=
          Nat.mul_le_mul_right _ hkc
        calc next + fi.max_packet_length = cum + (k + 1) * fi.max_packet_length := by
              rw [hk]; ring
        _ ≤ cum + c * fi.max_packet_length := by omega
        _ = cum + cwnd := by rw [hc]
      split at h
      · rcases hrec : msmLoop fi cwnd fuel (next + fi.max_packet_length) cum with _ | ⟨ps1, n1⟩ <;>
          rw [hrec] at h
        · exact absurd h (by simp)
        · have := ih (next + fi.max_packet_length) cum ps1 n1 hrec
            ⟨k + 1, by rw [hk]; ring⟩
          simp only [Option.some.injEq, Prod.mk.injEq] at h
          have hmax : max (next + fi.max_packet_length) (cum + cwnd) = cum + cwnd :=
            Nat.max_eq_right hstep
          rw [hmax] at this
          have : next' ≤ cum + cwnd := by omega
          omega
      · split at h <;> simp only [Option.some.injEq, Prod.mk.injEq] at h
        · rename_i hshort hlt
          push_neg at hshort
          have : fi.length_bytes ≤ cum + cwnd := by omega
          omega
        · omega
    · simp only [Option.some.injEq, Prod.mk.injEq] at h
      omega

/-- The send loop stops only at the window edge or at the end of the flow. -/
lemma msmLoop_no_early_stop (fi : FlowInfo) (cwnd : Nat) :
    ∀ (fuel next cum : Nat) (ps : List Packet) (next' : Nat),
    msmLoop fi cwnd fuel next cum = some (ps, next') →
    next ≤ fi.length_bytes →
    next' = fi.length_bytes ∨ cum + cwnd ≤ next' := by
  intro fuel
  induction fuel with
  | zero => intro next cum ps next' h; simp [msmLoop] at h
  | succ fuel ih =>
    intro next cum ps next' h hle
    rw [msmLoop] at h
    split at h
    · split at h
      · rcases hrec : msmLoop fi cwnd fuel (next + fi.max_packet_length) cum with _ | ⟨ps1, n1⟩ <;>
          rw [hrec] at h
        · exact absurd h (by simp)
        · rename_i hfull
          have := ih (next + fi.max_packet_length) cum ps1 n1 hrec hfull
          simp only [Option.some.injEq, Prod.mk.injEq] at h
          rcases this with h1 | h1
          · left; omega
          · right; omega
      · split at h <;> simp only [Option.some.injEq, Prod.mk.injEq] at h
        · left; omega
        · left; omega
    · simp only [Option.some.injEq, Prod.mk.injEq] at h
      right; omega

/-- Every packet emitted by the send loop is a `Data` of the flow whose
sequence number advances by `max_packet_length` per packet and whose length
is `max_packet_length` truncated at the end of the flow. -/
lemma msmLoop_pkts (fi : FlowInfo) (cwnd : Nat) :
    ∀ (fuel next cum : Nat) (ps : List Packet) (next' : Nat),
    msmLoop fi cwnd fuel next cum = some (ps, next') →
    ∀ i (hi : i < ps.length), ps.get ⟨i, hi⟩ =
      mkData fi (next + i * fi.max_packet_length)
        (min fi.max_packet_length
          (fi.length_bytes - (next + i * fi.max_packet_length))) := by
  intro fuel
  induction fuel with
  | zero => intro next cum ps next' h; simp [msmLoop] at h
  | succ fuel ih =>
    intro next cum ps next' h i hi
    rw [msmLoop] at h
    split at h
    · split at h
      · rcases hrec : msmLoop fi cwnd fuel (next + fi.max_packet_length) cum with _ | ⟨ps1, n1⟩ <;>
          rw [hrec] at h
        · exact absurd h (by simp)
        · rename_i hfull
          simp only [Option.some.injEq, Prod.mk.injEq] at h
          obtain ⟨hps, hnext⟩ := h
          subst hps
          match i with
          | 0 =>
            simp only [List.get]
            have : min fi.max_packet_length (fi.length_bytes - next) =
                fi.max_packet_length := Nat.min_eq_left (by omega)
            simp [this]
          | Nat.succ j =>
            have hj : j < ps1.length := by
              simpa using Nat.lt_of_succ_lt_succ hi
            have hrecv := ih (next + fi.max_packet_length) cum ps1 n1 hrec j hj
            have harith : next + fi.max_packet_length + j * fi.max_packet_length =
                next + (j + 1) * fi.max_packet_length := by ring
            rw [harith] at hrecv
            simpa using hrecv
      · split at h <;> simp only [Option.some.injEq, Prod.mk.injEq] at h
        · rename_i hshort hlt
          obtain ⟨hps, hnext⟩ := h
          subst hps
          match i with
          | 0 =>
            simp only [List.get]
            have : min fi.max_packet_length (fi.length_bytes - next) =
                fi.length_bytes - next := Nat.min_eq_right (by omega)
            simp [this]
        · obtain ⟨hps, _⟩ := h
          subst hps
          simp at hi
    · simp only [Option.some.injEq, Prod.mk.injEq] at h
      obtain ⟨hps, _⟩ := h
      subst hps
      simp at hi

/-- C6.  The go-back-N receiver: in-order data advances
`cumulative_received` by the packet length, clears `nack_inflight`, and
produces exactly one cumulative ACK carrying the new `cumulative_received`;
out-of-order data produces a single NACK for `cumulative_received` when
`nack_inflight` was false (setting it), and nothing when it was already set —
so at most one receiver NACK is outstanding at a time. -/
theorem C6_receiver_data_handling :
    ∀ (r : GoBackNReceiver) (hdr : PacketHeader) (seq length time : Nat),
    hdr.flow = r.flow_info.flow_id → hdr.to_ = r.flow_info.dest_id →
    hdr.from_ = r.flow_info.sender_id →
    (∃ x, r.got_data (.Data hdr seq length) time = .ok x) ∧
    (∀ pkts r', r.got_data (.Data hdr seq length) time = .ok (pkts, r') →
      (seq = r.cumulative_received →
        r'.cumulative_received = r.cumulative_received + length ∧
        r'.nack_inflight = false ∧
        pkts = [Packet.Ack ⟨hdr.flow, hdr.to_, hdr.from_⟩
          (r.cumulative_received + length)]) ∧
      (seq ≠ r.cumulative_received → r.nack_inflight = false →
        pkts = [Packet.Nack ⟨hdr.flow, hdr.to_, hdr.from_⟩ r.cumulative_received] ∧
        r'.nack_inflight = true ∧
        r'.cumulative_received = r.cumulative_received) ∧
      (seq ≠ r.cumulative_received → r.nack_inflight = true →
        pkts = [] ∧ r'.nack_inflight = true ∧
        r'.cumulative_received = r.cumulative_received ∧
        r'.completion_time = r.completion_time)) := by
  intro r hdr seq length time hflow hto hfrom
  constructor
  · rcases hst : r.start_time with _ | st <;>
      by_cases hseq : seq = r.cumulative_received <;>
      by_cases hfin : r.cumulative_received + length = r.flow_info.length_bytes <;>
      by_cases hnif : r.nack_inflight <;>
      simp [GoBackNReceiver.got_data, hst, hseq, hfin, hnif, hflow, hto, hfrom]
  · intro pkts r' h
    rcases hst : r.start_time with _ | st <;>
      by_cases hseq : seq = r.cumulative_received <;>
      by_cases hfin : r.cumulative_received + length = r.flow_info.length_bytes <;>
      by_cases hnif : r.nack_inflight <;>
      simp only [GoBackNReceiver.got_data, hst, hflow, hto, hfrom,
        Option.isNone_none, Option.isNone_some] at h <;>
      simp_all <;>
      try (obtain ⟨hp, hr⟩ := h; subst hp; subst hr; simp)

/-- C6 witness: the theorem instantiated at a fresh receiver getting the
first in-order packet. -/
theorem C6_witness :
    (∃ x, (⟨⟨7, 0, 1, 10000, 100⟩, 0, none, none, false⟩ :
        GoBackNReceiver).got_data (.Data ⟨7, 0, 1⟩ 0 100) 5 = .ok x) ∧
    (∀ pkts r',
      (⟨⟨7, 0, 1, 10000, 100⟩, 0, none, none, false⟩ :
          GoBackNReceiver).got_data (.Data ⟨7, 0, 1⟩ 0 100) 5 = .ok (pkts, r') →
      ((0 : Nat) = 0 →
        r'.cumulative_received = 0 + 100 ∧ r'.nack_inflight = false ∧
        pkts = [Packet.Ack ⟨7, 1, 0⟩ (0 + 100)]) ∧
      ((0 : Nat) ≠ 0 → (false : Bool) = false →
        pkts = [Packet.Nack ⟨7, 1, 0⟩ 0] ∧ r'.nack_inflight = true ∧
        r'.cumulative_received = 0) ∧
      ((0 : Nat) ≠ 0 → (false : Bool) = true →
        pkts = [] ∧ r'.nack_inflight = true ∧ r'.cumulative_received = 0 ∧
        r'.completion_time = none)) :=
  C6_receiver_data_handling ⟨⟨7, 0, 1, 10000, 100⟩, 0, none, none, false⟩
    ⟨7, 0, 1⟩ 0 100 5 rfl rfl rfl

/-- C7 counterexample.  A sender whose `next_to_send` is not aligned to
`cumulative_acked` modulo `max_packet_length` overshoots the byte window
`cwnd * max_packet_length`: from `next_to_send = 50`, `cumulative_acked = 0`,
`cwnd = 2`, `max_packet_length = 100`, the send step stops at
`next_to_send = 250 > 200`. -/
theorem C7_counterexample :
    GoBackNSender.maybe_send_more
        (⟨fun _ => 2, fun c _ _ => c, fun c _ => c⟩ : CongAlgOps Unit)
        ⟨⟨7, 0, 1, 10000, 100⟩, none, none, 50, 0, 0, ()⟩ =
      .ok ([mkData ⟨7, 0, 1, 10000, 100⟩ 50 100, mkData ⟨7, 0, 1, 10000, 100⟩ 150 100],
        ⟨⟨7, 0, 1, 10000, 100⟩, none, none, 250, 0, 0, ()⟩) ∧
    ¬ (250 : Nat) ≤ 0 + 2 * 100 := by
  exact ⟨rfl, by norm_num⟩

/-- C7 amended.  With at-least-one-byte packets, `next_to_send ≤
length_bytes`, and `next_to_send` aligned to `cumulative_acked` modulo
`max_packet_length` (as in every state the transport itself produces), a send
step emits data packets whose sequence numbers advance from `next_to_send` in
steps of `max_packet_length`, all full-size except a possibly-short final one
truncated at `length_bytes`; it only changes `next_to_send`, never moves it
backwards, never past `length_bytes`, never past the window
`cumulative_acked + cwnd * max_packet_length` (unless it already started
beyond it), and stops only at the window edge or the end of the flow. -/
theorem C7_amended_send_step {CC : Type} (ops : CongAlgOps CC)
    (s : GoBackNSender CC)
    (hmpl : 1 ≤ s.flow_info.max_packet_length)
    (hlen : s.next_to_send ≤ s.flow_info.length_bytes)
    (halign : ∃ k, s.next_to_send =
      s.cumulative_acked + k * s.flow_info.max_packet_length) :
    ∃ ps s', s.maybe_send_more ops = .ok (ps, s') ∧
      s' = { s with next_to_send := s'.next_to_send } ∧
      (∀ i (hi : i < ps.length), ps.get ⟨i, hi⟩ =
        mkData s.flow_info (s.next_to_send + i * s.flow_info.max_packet_length)
          (min s.flow_info.max_packet_length
            (s.flow_info.length_bytes -
              (s.next_to_send + i * s.flow_info.max_packet_length)))) ∧
      s.next_to_send ≤ s'.next_to_send ∧
      s'.next_to_send ≤ s.flow_info.length_bytes ∧
      s'.next_to_send ≤ max s.next_to_send
        (s.cumulative_acked + ops.cwnd s.cong_control * s.flow_info.max_packet_length) ∧
      (s'.next_to_send = s.flow_info.length_bytes ∨
        s.cumulative_acked + ops.cwnd s.cong_control * s.flow_info.max_packet_length ≤
          s'.next_to_send) := by
  obtain ⟨⟨ps, next'⟩, hr⟩ := msmLoop_total s.flow_info
    (ops.cwnd s.cong_control * s.flow_info.max_packet_length) hmpl
    (s.cumulative_acked + ops.cwnd s.cong_control * s.flow_info.max_packet_length + 2)
    s.next_to_send s.cumulative_acked (by omega) (by omega)
  refine ⟨ps, { s with next_to_send := next' }, ?_, rfl, ?_, ?_, ?_, ?_, ?_⟩
  · simp only [GoBackNSender.maybe_send_more, hr]
  · exact msmLoop_pkts _ _ _ _ _ _ _ hr
  · exact msmLoop_mono _ _ _ _ _ _ _ hr
  · exact msmLoop_le_length _ _ _ _ _ _ _ hr hlen
  · exact msmLoop_window _ _ hmpl _ rfl _ _ _ _ _ hr halign
  · exact msmLoop_no_early_stop _ _ _ _ _ _ _ hr hlen

/-- C7 amended witness: the theorem instantiated at a fresh 300-byte flow
with two-packet window and 100-byte packets. -/
theorem C7_amended_witness :
    ∃ ps s',
      GoBackNSender.maybe_send_more
          (⟨fun c => c, fun c _ _ => c, fun c _ => c⟩ : CongAlgOps Nat)
          ⟨⟨1, 0, 1, 300, 100⟩, none, none, 0, 0, 0, 2⟩ = .ok (ps, s') ∧
      s' = { (⟨⟨1, 0, 1, 300, 100⟩, none, none, 0, 0, 0, 2⟩ : GoBackNSender Nat) with
        next_to_send := s'.next_to_send } ∧
      (∀ i (hi : i < ps.length), ps.get ⟨i, hi⟩ =
        mkData ⟨1, 0, 1, 300, 100⟩ (0 + i * 100) (min 100 (300 - (0 + i * 100)))) ∧
      0 ≤ s'.next_to_send ∧ s'.next_to_send ≤ 300 ∧
      s'.next_to_send ≤ max 0 (0 + 2 * 100) ∧
      (s'.next_to_send = 300 ∨ 0 + 2 * 100 ≤ s'.next_to_send) :=
  C7_amended_send_step _ _ (by norm_num) (by norm_num) ⟨0, by norm_num⟩

/-- C8 counterexample.  A stale ACK is not a pure no-op on the sender state:
`receive` re-anchors `retx_timeout` to the receive time before the ACK is
examined, so the state changes whenever the receive time differs from the old
anchor. -/
theorem C8_counterexample :
    GoBackNSender.receive constCwndOps
        (⟨⟨7, 0, 1, 10000, 100⟩, none, none, 200, 200, 0, 10⟩ : GoBackNSender Nat) 5
        (.Ack ⟨7, 1, 0⟩ 100) =
      .ok ([], false, ⟨⟨7, 0, 1, 10000, 100⟩, none, none, 200, 200, 5, 10⟩) ∧
    (⟨⟨7, 0, 1, 10000, 100⟩, none, none, 200, 200, 5, 10⟩ : GoBackNSender Nat) ≠
      ⟨⟨7, 0, 1, 10000, 100⟩, none, none, 200, 200, 0, 10⟩ := by
  refine ⟨rfl, ?_⟩
  intro h
  have := congrArg GoBackNSender.retx_timeout h
  simp at this

/-- C8 amended.  On an ACK with `cumulative_acked_seq ≤ cumulative_acked`
(headers matching the flow), the sender emits no packets, requests no queue
clear, performs no congestion-control transition, and its state is unchanged
except that the retransmit anchor `retx_timeout` is set to the receive
time. -/
theorem C8_amended_stale_ack_ignored {CC : Type} (ops : CongAlgOps CC)
    (s : GoBackNSender CC) (time : Nat) (hdr : PacketHeader) (acked : Nat)
    (hflow : hdr.flow = s.flow_info.flow_id)
    (hfrom : hdr.from_ = s.flow_info.dest_id)
    (hto : hdr.to_ = s.flow_info.sender_id)
    (hstale : acked ≤ s.cumulative_acked) :
    s.receive ops time (.Ack hdr acked) =
      .ok ([], false, { s with retx_timeout := time }) ∧
    ({ s with retx_timeout := time } : GoBackNSender CC).cong_control =
      s.cong_control := by
  refine ⟨?_, rfl⟩
  simp only [GoBackNSender.receive, GoBackNSender.got_ack]
  rw [if_pos ⟨hflow, hfrom, hto⟩, if_neg (by simp; omega)]

/-- C8 amended witness: the amended theorem at the counterexample input. -/
theorem C8_amended_witness :
    GoBackNSender.receive constCwndOps
        (⟨⟨7, 0, 1, 10000, 100⟩, none, none, 200, 200, 0, 10⟩ : GoBackNSender Nat) 5
        (.Ack ⟨7, 1, 0⟩ 100) =
      .ok ([], false,
        { (⟨⟨7, 0, 1, 10000, 100⟩, none, none, 200, 200, 0, 10⟩ : GoBackNSender Nat) with
          retx_timeout := 5 }) ∧
    ({ (⟨⟨7, 0, 1, 10000, 100⟩, none, none, 200, 200, 0, 10⟩ : GoBackNSender Nat) with
        retx_timeout := 5 }).cong_control =
      (⟨⟨7, 0, 1, 10000, 100⟩, none, none, 200, 200, 0, 10⟩ :
        GoBackNSender Nat).cong_control :=
  C8_amended_stale_ack_ignored constCwndOps _ 5 ⟨7, 1, 0⟩ 100 rfl rfl rfl (by norm_num)

/-- C10.  A sender whose retransmit anchor is still its initial value 0 never
takes the retransmit-timeout branch of `exec`, however large the current time
is: `exec` succeeds with the clear flag false, the anchor stays 0,
`cumulative_acked` is untouched and `next_to_send` only moves forward
(window-limited sending, no go-back-N). -/
theorem C10_no_timeout_before_first_ack {CC : Type} (ops : CongAlgOps CC)
    (s : GoBackNSender CC) (time : Nat)
    (hretx : s.retx_timeout = 0)
    (hmpl : 1 ≤ s.flow_info.max_packet_length) :
    ∃ ps s', s.exec ops time = .ok (ps, false, s') ∧
      s'.retx_timeout = 0 ∧
      s'.cumulative_acked = s.cumulative_acked ∧
      s.next_to_send ≤ s'.next_to_send := by
  unfold GoBackNSender.exec
  set s1 := if s.start_time.isNone then { s with start_time := some time } else s with hs1
  have h1r : s1.retx_timeout = 0 := by
    simp only [hs1]; split <;> simpa
  have h1c : s1.cumulative_acked = s.cumulative_acked := by
    simp only [hs1]; split <;> rfl
  have h1n : s1.next_to_send = s.next_to_send := by
    simp only [hs1]; split <;> rfl
  have h1f : s1.flow_info = s.flow_info := by
    simp only [hs1]; split <;> rfl
  have hto : GoBackNSender.check_timeout s1 time = false := by
    simp [GoBackNSender.check_timeout, h1r]
  by_cases hcomp : s1.completion_time.isSome
  · refine ⟨[], s1, ?_, h1r, h1c, by omega⟩
    simp [hcomp]
  · obtain ⟨⟨ps, next'⟩, hr⟩ := msmLoop_total s1.flow_info
      (ops.cwnd s1.cong_control * s1.flow_info.max_packet_length) (h1f ▸ hmpl)
      (s1.cumulative_acked + ops.cwnd s1.cong_control * s1.flow_info.max_packet_length + 2)
      s1.next_to_send s1.cumulative_acked (by omega) (by omega)
    refine ⟨ps, { s1 with next_to_send := next' }, ?_, h1r, h1c, ?_⟩
    · simp [hcomp, hto, GoBackNSender.maybe_send_more, hr, Except.map]
    · have hmono := msmLoop_mono _ _ _ _ _ _ _ hr
      show s.next_to_send ≤ next'
      omega

/-- C10 witness: a fresh sender polled at an arbitrarily late time still
takes the plain sending branch. -/
theorem C10_witness :
    ∃ ps s',
      GoBackNSender.exec constCwndOps
          (⟨⟨1, 0, 1, 300, 100⟩, none, none, 0, 0, 0, 10⟩ : GoBackNSender Nat)
          5000000000 = .ok (ps, false, s') ∧
      s'.retx_timeout = 0 ∧ s'.cumulative_acked = 0 ∧ 0 ≤ s'.next_to_send :=
  C10_no_timeout_before_first_ack constCwndOps _ 5000000000 rfl (by norm_num)

/-- `Link::pfc_pause_threshold` from `node/mod.rs`: zero when PFC is
disabled, otherwise the bandwidth-delay product plus two MTUs.  The `u64`
product wraps modulo `2^64`, the `as u32` cast truncates modulo `2^32`, and
the `u32` additions wrap modulo `2^32`. -/
def Link.pfc_pause_threshold (l : Link) : Nat :=
  if l.pfc_enabled = false then 0
  else
    let bdp := l.propagation_delay * l.bandwidth_bps % 2 ^ 64 / 1000000000 / 8
    (bdp % 2 ^ 32 + 1500 + 1500) % 2 ^ 32

/-- `Link::pfc_resume_threshold` from `node/mod.rs`: the pause threshold plus
two MTUs, with wrapping `u32` addition. -/
def Link.pfc_resume_threshold (l : Link) : Nat :=
  (l.pfc_pause_threshold + 2 * 1500) % 2 ^ 32

/-- The bandwidth-delay product computed by the source is below `2^32`, so
the `as u32` cast and the subsequent `u32` additions never truncate. -/
lemma Link.bdp_lt (n : Nat) : n % 2 ^ 64 / 1000000000 / 8 ≤ 2305843009 := by
  have h1 : n % 2 ^ 64 ≤ 2 ^ 64 - 1 := Nat.le_sub_one_of_lt (Nat.mod_lt _ (by norm_num))
  calc n % 2 ^ 64 / 1000000000 / 8 ≤ (2 ^ 64 - 1) / 1000000000 / 8 :=
        Nat.div_le_div_right (Nat.div_le_div_right h1)
  _ = 2305843009 := by norm_num

/-- C9 counterexample.  The claimed exact formula fails when the `u64`
product `propagation_delay * bandwidth_bps` wraps: at `propagation_delay =
bandwidth_bps = 2^35` the code computes a pause threshold of 3000 bytes while
`propagation_delay * bandwidth_bps / 8e9 + 3000 = 147573955589`. -/
theorem C9_counterexample :
    Link.pfc_pause_threshold ⟨2 ^ 35, 2 ^ 35, true, 0, 1⟩ = 3000 ∧
    2 ^ 35 * 2 ^ 35 / 8000000000 + 3000 = 147573955589 ∧
    (3000 : Nat) ≠ 147573955589 := by
  refine ⟨?_, by norm_num, by norm_num⟩
  simp only [Link.pfc_pause_threshold]
  norm_num

/-- C9 amended.  Whenever `propagation_delay * bandwidth_bps` does not
overflow `u64`, the pause threshold equals `propagation_delay *
bandwidth_bps / 8e9 + 3000` bytes (exact integer arithmetic, via
`⌊⌊x/1e9⌋/8⌋ = ⌊x/8e9⌋`) when `pfc_enabled` and 0 otherwise; and for every
link, without any side condition, the resume threshold equals the pause
threshold plus 3000 bytes. -/
theorem C9_amended_pfc_thresholds (l : Link)
    (hnof : l.propagation_delay * l.bandwidth_bps < 2 ^ 64) :
    (l.pfc_pause_threshold =
      if l.pfc_enabled then
        l.propagation_delay * l.bandwidth_bps / 8000000000 + 3000
      else 0) ∧
    (∀ l' : Link, l'.pfc_resume_threshold = l'.pfc_pause_threshold + 3000) := by
  constructor
  · rcases he : l.pfc_enabled with _ | _
    · simp [Link.pfc_pause_threshold, he]
    · have hmod : l.propagation_delay * l.bandwidth_bps % 2 ^ 64 =
          l.propagation_delay * l.bandwidth_bps := Nat.mod_eq_of_lt hnof
      have hbdp := Link.bdp_lt (l.propagation_delay * l.bandwidth_bps)
      simp only [Link.pfc_pause_threshold, he, if_true, if_false]
      rw [hmod] at hbdp ⊢
      have h32 : l.propagation_delay * l.bandwidth_bps / 1000000000 / 8 % 2 ^ 32 =
          l.propagation_delay * l.bandwidth_bps / 1000000000 / 8 :=
        Nat.mod_eq_of_lt (by omega)
      rw [h32, Nat.mod_eq_of_lt (by omega), Nat.div_div_eq_div_mul]
      norm_num
  · intro l'
    have hsum : l'.pfc_pause_threshold + 2 * 1500 < 2 ^ 32 := by
      rcases he : l'.pfc_enabled with _ | _
      · simp [Link.pfc_pause_threshold, he]
      · have hbdp := Link.bdp_lt (l'.propagation_delay * l'.bandwidth_bps)
        have h32 : l'.propagation_delay * l'.bandwidth_bps % 2 ^ 64 / 1000000000 / 8
            % 2 ^ 32 =
            l'.propagation_delay * l'.bandwidth_bps % 2 ^ 64 / 1000000000 / 8 :=
          Nat.mod_eq_of_lt (by omega)
        have hpause : l'.pfc_pause_threshold =
            (l'.propagation_delay * l'.bandwidth_bps % 2 ^ 64 / 1000000000 / 8 % 2 ^ 32
              + 1500 + 1500) % 2 ^ 32 := by
          simp [Link.pfc_pause_threshold, he]
        rw [hpause, h32, Nat.mod_eq_of_lt (by omega)]
        omega
    simp only [Link.pfc_resume_threshold]
    rw [Nat.mod_eq_of_lt hsum]

/-- C9 amended witness: a 1 ms, 8 Gbps PFC link has a 1,003,000-byte pause
threshold and a 1,006,000-byte resume threshold. -/
theorem C9_amended_witness :
    (Link.pfc_pause_threshold ⟨1000000, 8000000000, true, 0, 1⟩ =
      if true then 1000000 * 8000000000 / 8000000000 + 3000 else 0) ∧
    (∀ l' : Link, l'.pfc_resume_threshold = l'.pfc_pause_threshold + 3000) :=
  C9_amended_pfc_thresholds ⟨1000000, 8000000000, true, 0, 1⟩ (by norm_num)

/-- `EventContainer(Box<Event>, Nanos)` from `event.rs`: a scheduled event's
payload (modelled as an opaque tag) with its resolved absolute fire time.
`Ord` compares only the time, reversed (`other.1.cmp(&self.1)`), making the
standard-library max-heap a min-heap on fire time with NO tie-breaker. -/
structure EventContainer where
  ev : Nat
  time : Nat
deriving DecidableEq, Repr, Inhabited

/-- Indexing into the heap's backing vector (`default` out of range; every
use below is in range). -/
def lget (l : List EventContainer) (i : Nat) : EventContainer :=
  l.getD i default

/-- `EventContainer`'s `a > b`, i.e. `cmp(a, b) == Greater`: reversed time
comparison, so `a > b` iff `a.time < b.time`. -/
def ecGt (a b : EventContainer) : Bool :=
  decide (a.time < b.time)

/-- `EventContainer`'s `a <= b`: `cmp(a, b) != Greater`, i.e.
`b.time ≤ a.time`. -/
def ecLe (a b : EventContainer) : Bool :=
  decide (b.time ≤ a.time)

/-- `BinaryHeap::sift_up` from the Rust standard library (the `Hole`-based
loop): the hole carrying `x` bubbles toward `start`, moving parents down
while they compare strictly below `x`, and finally writes `x` at the hole.
The loop is driven by a structural fuel that strictly bounds the number of
remaining iterations whenever `pos ≤ fuel` (the position strictly decreases
each step), and the fuel-exhaustion fallback coincides with the `pos = 0`
exit, so for every sufficient fuel the function computes exactly the
source's loop; all callers pass `fuel = pos`. -/
def siftUpLoop (x : EventContainer) (start : Nat) :
    Nat → List EventContainer → Nat → List EventContainer
  | 0, l, pos => l.set pos x
  | fuel + 1, l, pos =>
    if start < pos then
      if ecLe x (lget l ((pos - 1) / 2)) then l.set pos x
      else siftUpLoop x start fuel (l.set pos (lget l ((pos - 1) / 2))) ((pos - 1) / 2)
    else l.set pos x

/-- `BinaryHeap::push`: append, then sift up from the last slot. -/
def heapPush (l : List EventContainer) (x : EventContainer) : List EventContainer :=
  siftUpLoop x 0 l.length (l ++ [x]) l.length

/-- The downward phase of `BinaryHeap::sift_down_to_bottom`: the hole walks
to the bottom of the tree along greater children (here: smaller fire times;
ties pick the right child), moving each chosen child up.  As with
`siftUpLoop` the structural fuel strictly bounds the remaining iterations
whenever `endn ≤ fuel + pos` (the position strictly increases each step),
and the fuel-exhaustion fallback coincides with the leaf exit, so for every
sufficient fuel the function computes exactly the source's loop; the caller
passes `fuel = endn`. -/
def siftDownLoop (x : EventContainer) (endn : Nat) :
    Nat → List EventContainer → Nat → List EventContainer × Nat
  | 0, l, pos => (l.set pos x, pos)
  | fuel + 1, l, pos =>
    if 2 * pos + 1 < endn then
      let child := 2 * pos + 1
      let child :=
        if child + 1 < endn ∧ ¬ ecGt (lget l child) (lget l (child + 1)) then child + 1
        else child
      siftDownLoop x endn fuel (l.set pos (lget l child)) child
    else (l.set pos x, pos)

/-- `BinaryHeap::sift_down_to_bottom`: take the element at `pos` out, walk
the hole to the bottom, then sift the element back up from there. -/
def siftDownToBottom (l : List EventContainer) (pos : Nat) : List EventContainer :=
  siftUpLoop (lget (siftDownLoop (lget l pos) l.length l.length l pos).1
      (siftDownLoop (lget l pos) l.length l.length l pos).2) pos
    (siftDownLoop (lget l pos) l.length l.length l pos).2
    (siftDownLoop (lget l pos) l.length l.length l pos).1
    (siftDownLoop (lget l pos) l.length l.length l pos).2

/-- `BinaryHeap::pop`: remove the last element; if the heap is still
non-empty, swap it with the root and restore the heap shape with
`sift_down_to_bottom`; return the old root. -/
def heapPop (l : List EventContainer) :
    Option (EventContainer × List EventContainer) :=
  match l with
  | [] => none
  | _ :: _ =>
    let item := lget l (l.length - 1)
    let rest := l.dropLast
    if rest.isEmpty then some (item, rest)
    else
      let top := lget rest 0
      let l2 := rest.set 0 item
      some (top, siftDownToBottom l2 0)

/-- The binary-heap shape invariant in parent form: every non-root entry is
at or above its parent's fire time (a min-heap on time, since
`EventContainer`'s reversed `Ord` puts the smallest time on top). -/
def IsHeap (l : List EventContainer) : Prop :=
  ∀ j, j < l.length → j ≠ 0 → (lget l ((j - 1) / 2)).time ≤ (lget l j).time

instance IsHeap.dec (l : List EventContainer) : Decidable (IsHeap l) :=
  inferInstanceAs (Decidable (∀ j, j < l.length → j ≠ 0 →
    (lget l ((j - 1) / 2)).time ≤ (lget l j).time))

lemma lget_eq_getElem (l : List EventContainer) (i : Nat) (h : i < l.length) :
    lget l i = l[i] :=
  List.getD_eq_getElem l default h

lemma lget_set_self (l : List EventContainer) (i : Nat) (a : EventContainer)
    (h : i < l.length) : lget (l.set i a) i = a := by
  rw [lget_eq_getElem _ _ (by simpa), List.getElem_set_self]

lemma lget_set_ne (l : List EventContainer) (i j : Nat) (a : EventContainer)
    (hne : i ≠ j) : lget (l.set i a) j = lget l j := by
  by_cases hj : j < l.length
  · rw [lget_eq_getElem _ _ (by simpa), lget_eq_getElem _ _ hj,
      List.getElem_set_ne hne]
  · push_neg at hj
    rw [lget, lget, List.getD_eq_default _ _ (by simpa), List.getD_eq_default _ _ hj]

lemma set_lget_self (l : List EventContainer) (i : Nat) (h : i < l.length) :
    l.set i (lget l i) = l := by
  induction l generalizing i with
  | nil => simp at h
  | cons a t ih =>
    cases i with
    | zero => simp [lget, List.set]
    | succ j =>
      simp only [List.set, List.cons.injEq, true_and]
      have : lget (a :: t) (j + 1) = lget t j := by simp [lget]
      rw [this]
      exact ih j (by simpa using h)

lemma lget_append_left (l t : List EventContainer) (j : Nat) (h : j < l.length) :
    lget (l ++ t) j = lget l j := by
  rw [lget_eq_getElem _ _ (by simp; omega), lget_eq_getElem _ _ h,
    List.getElem_append_left h]

lemma lget_concat_self (l : List EventContainer) (x : EventContainer) :
    lget (l ++ [x]) l.length = x := by
  rw [lget_eq_getElem _ _ (by simp)]
  simp

lemma lget_dropLast (l : List EventContainer) (j : Nat) (h : j < l.length - 1) :
    lget l.dropLast j = lget l j := by
  rw [lget_eq_getElem _ _ (by simpa [List.length_dropLast]),
    lget_eq_getElem _ _ (by omega), List.getElem_dropLast]

/-- Replacing `l[i]` by `a` exchanges `l[i]` for `a` in the multiset of
entries. -/
lemma ms_set (l : List EventContainer) (i : Nat) (a : EventContainer)
    (h : i < l.length) :
    ((l.set i a : List EventContainer) : Multiset EventContainer) + {lget l i} =
      (l : Multiset EventContainer) + {a} := by
  have e1 : ∀ (p : List EventContainer) (x : EventContainer)
      (q : List EventContainer),
      ((p ++ x :: q : List EventContainer) : Multiset EventContainer) =
        (p : Multiset EventContainer) + ({x} + (q : Multiset EventContainer)) := by
    intro p x q
    rfl
  rw [List.set_eq_take_cons_drop a h, lget_eq_getElem _ _ h]
  conv_rhs => rw [← List.take_append_drop i l, List.drop_eq_getElem_cons h]
  rw [e1, e1]
  abel

/-- In a heap, the root has the minimum fire time. -/
lemma IsHeap.root_le {l : List EventContainer} (hl : IsHeap l) :
    ∀ i, i < l.length → (lget l 0).time ≤ (lget l i).time := by
  intro i
  induction i using Nat.strong_induction_on with
  | _ i ih =>
    intro hi
    rcases Nat.eq_zero_or_pos i with h0 | hpos
    · subst h0; exact le_rfl
    · have hparent : (i - 1) / 2 < i := by omega
      exact le_trans (ih _ hparent (by omega)) (hl i hi (by omega))

/-- "Heap except at `pos`": every parent edge holds except possibly the one
into `pos`. -/
def HeapExceptAt (l : List EventContainer) (pos : Nat) : Prop :=
  ∀ j, j < l.length → j ≠ 0 → j ≠ pos →
    (lget l ((j - 1) / 2)).time ≤ (lget l j).time

/-- The sift-up guard: the children of `pos` are already at or above the
time of `pos`'s parent, so that parent may move down into `pos`. -/
def GuardAt (l : List EventContainer) (pos : Nat) : Prop :=
  pos ≠ 0 → ∀ j, j < l.length → (j - 1) / 2 = pos →
    (lget l ((pos - 1) / 2)).time ≤ (lget l j).time

/-- "Heap except around the hole `p`": every parent edge not touching `p`
holds. -/
def HeapExceptHole (l : List EventContainer) (p : Nat) : Prop :=
  ∀ j, j < l.length → j ≠ 0 → j ≠ p → (j - 1) / 2 ≠ p →
    (lget l ((j - 1) / 2)).time ≤ (lget l j).time

/-- The sift-down guard: the children of the hole `p` are at or above the
time of `p`'s parent. -/
def GuardHole (l : List EventContainer) (p : Nat) : Prop :=
  p ≠ 0 → ∀ j, j < l.length → (j - 1) / 2 = p →
    (lget l ((p - 1) / 2)).time ≤ (lget l j).time

lemma siftUpLoop_length (x : EventContainer) (start : Nat) :
    ∀ (fuel : Nat) (l : List EventContainer) (pos : Nat),
    (siftUpLoop x start fuel l pos).length = l.length := by
  intro fuel l pos
  induction fuel, l, pos using siftUpLoop.induct x start with
  | case1 l pos =>
    simp only [siftUpLoop, List.length_set]
  | case2 fuel l pos hlt hle =>
    simp only [siftUpLoop, if_pos hlt, if_pos hle, List.length_set]
  | case3 fuel l pos hlt hle ih =>
    simp only [siftUpLoop, if_pos hlt, if_neg hle]
    rw [ih]
    simp
  | case4 fuel l pos hlt =>
    simp only [siftUpLoop, if_neg hlt, List.length_set]

lemma siftUpLoop_ms (x : EventContainer) (start : Nat) :
    ∀ (fuel : Nat) (l : List EventContainer) (pos : Nat), pos < l.length →
    ((siftUpLoop x start fuel l pos : List EventContainer) :
        Multiset EventContainer) + {lget l pos} =
      (l : Multiset EventContainer) + {x} := by
  intro fuel l pos
  induction fuel, l, pos using siftUpLoop.induct x start with
  | case1 l pos =>
    intro hlen
    simp only [siftUpLoop]
    exact ms_set l pos x hlen
  | case2 fuel l pos hlt hle =>
    intro hlen
    simp only [siftUpLoop, if_pos hlt, if_pos hle]
    exact ms_set l pos x hlen
  | case3 fuel l pos hlt hle ih =>
    intro hlen
    simp only [siftUpLoop, if_pos hlt, if_neg hle]
    have hpp : (pos - 1) / 2 < pos := by omega
    have hihm := ih (by simp only [List.length_set]; omega)
    rw [lget_set_ne _ _ _ _ (by omega)] at hihm
    have hms := ms_set l pos (lget l ((pos - 1) / 2)) hlen
    have key :
        ((siftUpLoop x start fuel (l.set pos (lget l ((pos - 1) / 2))) ((pos - 1) / 2) :
            List EventContainer) : Multiset EventContainer) + {lget l pos} +
          {lget l ((pos - 1) / 2)} =
        ((l : Multiset EventContainer) + {x}) + {lget l ((pos - 1) / 2)} := by
      calc
        ((siftUpLoop x start fuel (l.set pos (lget l ((pos - 1) / 2))) ((pos - 1) / 2) :
            List EventContainer) : Multiset EventContainer) + {lget l pos} +
          {lget l ((pos - 1) / 2)} =
        (((siftUpLoop x start fuel (l.set pos (lget l ((pos - 1) / 2))) ((pos - 1) / 2) :
            List EventContainer) : Multiset EventContainer) +
          {lget l ((pos - 1) / 2)}) + {lget l pos} := by abel
        _ = (((l.set pos (lget l ((pos - 1) / 2)) : List EventContainer) :
            Multiset EventContainer) + {x}) + {lget l pos} := by rw [hihm]
        _ = (((l.set pos (lget l ((pos - 1) / 2)) : List EventContainer) :
            Multiset EventContainer) + {lget l pos}) + {x} := by abel
        _ = ((l : Multiset EventContainer) + {lget l ((pos - 1) / 2)}) + {x} := by
            rw [hms]
        _ = ((l : Multiset EventContainer) + {x}) + {lget l ((pos - 1) / 2)} := by abel
    exact add_right_cancel key
  | case4 fuel l pos hlt =>
    intro hlen
    simp only [siftUpLoop, if_neg hlt]
    exact ms_set l pos x hlen

/-- Correctness of `sift_up` from `start = 0` (the only start the source
uses): if the array is a heap except at the hole, and the hole's children
already clear the hole's parent, sifting the element up restores the heap. -/
lemma siftUpLoop_heap (x : EventContainer) :
    ∀ (fuel : Nat) (l : List EventContainer) (pos : Nat), pos ≤ fuel →
    pos < l.length →
    HeapExceptAt (l.set pos x) pos → GuardAt (l.set pos x) pos →
    IsHeap (siftUpLoop x 0 fuel l pos) := by
  intro fuel l pos
  induction fuel, l, pos using siftUpLoop.induct x 0 with
  | case1 l pos =>
    intro hfuel hlen h1 h2
    simp only [siftUpLoop]
    have hpos : pos = 0 := by omega
    subst hpos
    intro j hj hj0
    exact h1 j (by simpa using hj) hj0 (by omega)
  | case2 fuel l pos hlt hle =>
    intro hfuel hlen h1 h2
    simp only [siftUpLoop, if_pos hlt, if_pos hle]
    intro j hj hj0
    by_cases hjp : j = pos
    · subst hjp
      have hpj : j ≠ (j - 1) / 2 := by omega
      rw [lget_set_self _ _ _ hlen, lget_set_ne _ _ _ _ hpj]
      simp only [ecLe, decide_eq_true_eq] at hle
      exact hle
    · exact h1 j (by simpa using hj) hj0 hjp
  | case3 fuel l pos hlt hle ih =>
    intro hfuel hlen h1 h2
    simp only [siftUpLoop, if_pos hlt, if_neg hle]
    simp only [ecLe, decide_eq_true_eq, not_le] at hle
    -- notation: par = (pos-1)/2, pv = lget l par, V = l.set pos x,
    -- V' = (l.set pos pv).set par x
    have hparlt : (pos - 1) / 2 < pos := by omega
    have hparlen : (pos - 1) / 2 < (l.set pos (lget l ((pos - 1) / 2))).length := by
      simp only [List.length_set]; omega
    -- field access on V and V'
    have hVpos : lget (l.set pos x) pos = x := lget_set_self _ _ _ hlen
    have hVother : ∀ j, j ≠ pos → lget (l.set pos x) j = lget l j :=
      fun j hj => lget_set_ne _ _ _ _ (fun h => hj h.symm)
    have hV'par :
        lget ((l.set pos (lget l ((pos - 1) / 2))).set ((pos - 1) / 2) x)
          ((pos - 1) / 2) = x :=
      lget_set_self _ _ _ hparlen
    have hV'pos :
        lget ((l.set pos (lget l ((pos - 1) / 2))).set ((pos - 1) / 2) x) pos =
          lget l ((pos - 1) / 2) := by
      rw [lget_set_ne _ _ _ _ (by omega), lget_set_self _ _ _ hlen]
    have hV'other : ∀ j, j ≠ pos → j ≠ (pos - 1) / 2 →
        lget ((l.set pos (lget l ((pos - 1) / 2))).set ((pos - 1) / 2) x) j =
          lget l j := by
      intro j hj1 hj2
      rw [lget_set_ne _ _ _ _ (fun h => hj2 h.symm),
        lget_set_ne _ _ _ _ (fun h => hj1 h.symm)]
    apply ih (by omega) (by simpa using hparlen)
    · -- HeapExceptAt V' parent
      intro j hj hj0 hjpar
      simp only [List.length_set] at hj
      by_cases hjpos : j = pos
      · subst hjpos
        have hpar : (j - 1) / 2 ≠ j := by omega
        rw [hV'pos, show (j - 1) / 2 = (j - 1) / 2 from rfl]
        rw [hV'par]
        exact le_of_lt hle
      · by_cases hpj : (j - 1) / 2 = pos
        · -- j is a child of pos
          have hjge : pos < j := by omega
          have hjnepar : j ≠ (pos - 1) / 2 := by omega
          rw [hpj, hV'pos, hV'other j hjpos hjnepar]
          have := h2 (by omega) j (by simpa using hj) hpj
          rw [hVother ((pos - 1) / 2) (by omega), hVother j hjpos] at this
          exact this
        · by_cases hpj2 : (j - 1) / 2 = (pos - 1) / 2
          · -- j is the sibling edge out of parent
            have hjne : j ≠ (pos - 1) / 2 := by omega
            rw [hpj2, hV'par, hV'other j hjpos hjne]
            have := h1 j (by simpa using hj) hj0 hjpos
            rw [hVother j hjpos, hpj2, hVother ((pos - 1) / 2) (by omega)] at this
            exact le_trans (le_of_lt hle) this
          · -- edge untouched
            have hjne : j ≠ (pos - 1) / 2 := by omega
            have hparne : (j - 1) / 2 ≠ pos := hpj
            have hparne2 : (j - 1) / 2 ≠ (pos - 1) / 2 := hpj2
            rw [hV'other j hjpos hjne, hV'other _ hparne hparne2]
            have := h1 j (by simpa using hj) hj0 hjpos
            rw [hVother j hjpos, hVother _ hparne] at this
            exact this
    · -- GuardAt V' parent
      intro hpar0 j hj hpj
      have hpar0x : (pos - 1) / 2 ≠ 0 := hpar0
      simp only [List.length_set] at hj
      have hgplt : ((pos - 1) / 2 - 1) / 2 < (pos - 1) / 2 := by omega
      have hgpne1 : ((pos - 1) / 2 - 1) / 2 ≠ pos := by omega
      have hgpne2 : ((pos - 1) / 2 - 1) / 2 ≠ (pos - 1) / 2 := by omega
      rw [hV'other _ hgpne1 hgpne2]
      have hedgepar := h1 ((pos - 1) / 2) (by simp only [List.length_set]; omega) hpar0
        (by omega)
      rw [hVother _ (by omega), hVother _ (by omega)] at hedgepar
      -- hedgepar : l[gp].time ≤ l[par].time
      by_cases hjpos : j = pos
      · subst hjpos
        rw [hV'pos]
        exact hedgepar
      · have hjgt : (pos - 1) / 2 < j := by omega
        have hjnepar : j ≠ (pos - 1) / 2 := by omega
        rw [hV'other j hjpos hjnepar]
        have hj0 : j ≠ 0 := by omega
        have hedgej := h1 j (by simpa using hj) hj0 hjpos
        rw [hVother j hjpos, hpj, hVother _ (by omega)] at hedgej
        exact le_trans hedgepar hedgej
  | case4 fuel l pos hlt =>
    intro hfuel hlen h1 h2
    simp only [siftUpLoop, if_neg hlt]
    have hpos : pos = 0 := by omega
    subst hpos
    intro j hj hj0
    exact h1 j (by simpa using hj) hj0 (by omega)

/-- Correctness of the downward phase of `sift_down_to_bottom`: walking the
hole to the bottom along minimal-time children preserves all heap edges away
from the hole, ends on a leaf holding `x`, establishes the sift-up
precondition there, and permutes nothing. -/
lemma siftDownLoop_spec (x : EventContainer) (n : Nat) :
    ∀ (fuel : Nat) (l : List EventContainer) (pos : Nat), n ≤ fuel + pos →
    n = l.length → pos < l.length →
    HeapExceptHole (l.set pos x) pos → GuardHole (l.set pos x) pos →
    (siftDownLoop x n fuel l pos).2 < (siftDownLoop x n fuel l pos).1.length ∧
    (siftDownLoop x n fuel l pos).1.length = l.length ∧
    ¬ 2 * (siftDownLoop x n fuel l pos).2 + 1 < n ∧
    lget (siftDownLoop x n fuel l pos).1 (siftDownLoop x n fuel l pos).2 = x ∧
    HeapExceptAt (siftDownLoop x n fuel l pos).1 (siftDownLoop x n fuel l pos).2 ∧
    GuardAt (siftDownLoop x n fuel l pos).1 (siftDownLoop x n fuel l pos).2 ∧
    ((siftDownLoop x n fuel l pos).1 : Multiset EventContainer) =
      ((l.set pos x : List EventContainer) : Multiset EventContainer) := by
  intro fuel l pos
  induction fuel, l, pos using siftDownLoop.induct x n with
  | case2 fuel l pos hlt c1 c2 ih =>
    intro hfuel hn hpos hH hG
    have hstep : siftDownLoop x n fuel.succ l pos =
        siftDownLoop x n fuel (l.set pos (lget l c2)) c2 := by
      simp only [siftDownLoop, if_pos hlt]
    have hc1 : c1 = 2 * pos + 1 := rfl
    have hc2 : c2 = if c1 + 1 < n ∧ ¬ ecGt (lget l c1) (lget l (c1 + 1)) = true
        then c1 + 1 else c1 := rfl
    -- facts about the chosen child
    have hc2range : c1 ≤ c2 ∧ c2 ≤ c1 + 1 := by
      rw [hc2]; split <;> omega
    have hc2lt : c2 < n := by
      rw [hc2]; split <;> omega
    have hc2par : (c2 - 1) / 2 = pos := by omega
    have hc2min : ∀ s, 0 < s → s < n → (s - 1) / 2 = pos →
        (lget l c2).time ≤ (lget l s).time := by
      intro s hs0 hs hsp
      have hschoice : s = 2 * pos + 1 ∨ s = 2 * pos + 2 := by omega
      rw [hc2]
      split
      · rename_i hsel
        have hle2 : (lget l (c1 + 1)).time ≤ (lget l c1).time := by
          have := hsel.2
          simp only [ecGt, decide_eq_true_eq] at this
          omega
        rcases hschoice with hs1 | hs2
        · rw [hs1, ← hc1]; exact hle2
        · rw [hs2, show 2 * pos + 2 = c1 + 1 by omega]
      · rename_i hsel
        rcases hschoice with hs1 | hs2
        · rw [hs1, ← hc1]
        · rcases Decidable.not_and_iff_or_not.mp hsel with hno | hgt
          · omega
          · rw [not_not] at hgt
            simp only [ecGt, decide_eq_true_eq] at hgt
            rw [hs2, show 2 * pos + 2 = c1 + 1 by omega]
            exact le_of_lt hgt
    have hc2pos : pos < c2 := by omega
    have hc2len : c2 < l.length := by omega
    have hset_len : c2 < (l.set pos (lget l c2)).length := by simpa using hc2len
    have hV'c : lget ((l.set pos (lget l c2)).set c2 x) c2 = x :=
      lget_set_self _ _ _ hset_len
    have hV'pos : lget ((l.set pos (lget l c2)).set c2 x) pos = lget l c2 := by
      rw [lget_set_ne _ _ _ _ (by omega), lget_set_self _ _ _ hpos]
    have hV'other : ∀ j, j ≠ pos → j ≠ c2 →
        lget ((l.set pos (lget l c2)).set c2 x) j = lget l j := by
      intro j hj1 hj2
      rw [lget_set_ne _ _ _ _ (fun h => hj2 h.symm),
        lget_set_ne _ _ _ _ (fun h => hj1 h.symm)]
    have hVother : ∀ j, j ≠ pos → lget (l.set pos x) j = lget l j :=
      fun j hj => lget_set_ne _ _ _ _ (fun h => hj h.symm)
    have hH' : HeapExceptHole ((l.set pos (lget l c2)).set c2 x) c2 := by
      intro j hj hj0 hjc hpjc
      simp only [List.length_set] at hj
      by_cases hjpos : j = pos
      · subst hjpos
        have hgp1 : (j - 1) / 2 ≠ j := by omega
        have hgp2 : (j - 1) / 2 ≠ c2 := by omega
        rw [hV'other ((j - 1) / 2) hgp1 hgp2, hV'pos]
        have hGapp := hG hj0 c2 (by simpa using hc2len) hc2par
        rw [hVother _ (by omega), hVother _ (by omega)] at hGapp
        exact hGapp
      · by_cases hpj : (j - 1) / 2 = pos
        · rw [hpj, hV'pos, hV'other j hjpos hjc]
          exact hc2min j (by omega) (by omega) hpj
        · rw [hV'other j hjpos hjc, hV'other _ hpj hpjc]
          have hHapp := hH j (by simpa using hj) hj0 hjpos hpj
          rw [hVother j hjpos, hVother _ hpj] at hHapp
          exact hHapp
    have hG' : GuardHole ((l.set pos (lget l c2)).set c2 x) c2 := by
      intro hc20 j hj hpj
      simp only [List.length_set] at hj
      have hjgt : c2 < j := by omega
      rw [hc2par, hV'pos, hV'other j (by omega) (by omega)]
      have hHapp := hH j (by simpa using hj) (by omega) (by omega) (by omega)
      rw [hVother j (by omega), hpj, hVother c2 (by omega)] at hHapp
      exact hHapp
    obtain ⟨r1, r2, r3, r4, r5, r6, r7⟩ :=
      ih (by omega) (by simp [hn]) (by simpa using hc2len) hH' hG'
    rw [hstep]
    refine ⟨r1, by rw [r2]; simp, r3, r4, r5, r6, ?_⟩
    rw [r7]
    have e1 := ms_set (l.set pos (lget l c2)) c2 x (by simpa using hc2len)
    rw [lget_set_ne _ _ _ _ (by omega)] at e1
    have e2 := ms_set l pos (lget l c2) hpos
    have e3 := ms_set l pos x hpos
    have key :
        (((l.set pos (lget l c2)).set c2 x : List EventContainer) :
            Multiset EventContainer) + {lget l c2} + {lget l pos} =
        ((l.set pos x : List EventContainer) : Multiset EventContainer) +
            {lget l c2} + {lget l pos} := by
      calc
        (((l.set pos (lget l c2)).set c2 x : List EventContainer) :
            Multiset EventContainer) + {lget l c2} + {lget l pos} =
        (((l.set pos (lget l c2)) : List EventContainer) : Multiset EventContainer)
            + {x} + {lget l pos} := by rw [e1]
        _ = (((l.set pos (lget l c2)) : List EventContainer) :
            Multiset EventContainer) + {lget l pos} + {x} := by abel
        _ = ((l : List EventContainer) : Multiset EventContainer) + {lget l c2}
            + {x} := by rw [e2]
        _ = ((l : List EventContainer) : Multiset EventContainer) + {x}
            + {lget l c2} := by abel
        _ = ((l.set pos x : List EventContainer) : Multiset EventContainer)
            + {lget l pos} + {lget l c2} := by rw [e3]
        _ = ((l.set pos x : List EventContainer) : Multiset EventContainer)
            + {lget l c2} + {lget l pos} := by abel
    have key2 := add_right_cancel key
    exact add_right_cancel key2
  | case3 fuel l pos hlt =>
    intro hfuel hn hpos hH hG
    simp only [siftDownLoop, if_neg hlt]
    refine ⟨?_, ?_, ?_, ?_, ?_, ?_, ?_⟩
    · simpa using hpos
    · simp
    · exact hlt
    · exact lget_set_self _ _ _ hpos
    · intro j hj hj0 hjpos
      have hjchild : (j - 1) / 2 ≠ pos := by
        intro hc
        have : j = 2 * pos + 1 ∨ j = 2 * pos + 2 := by omega
        simp only [List.length_set] at hj
        omega
      exact hH j hj hj0 hjpos hjchild
    · exact hG
    · trivial
  | case1 l pos =>
    intro hfuel hn hpos hH hG
    have hlt : ¬ 2 * pos + 1 < n := by omega
    simp only [siftDownLoop]
    refine ⟨?_, ?_, ?_, ?_, ?_, ?_, ?_⟩
    · simpa using hpos
    · simp
    · exact hlt
    · exact lget_set_self _ _ _ hpos
    · intro j hj hj0 hjpos
      have hjchild : (j - 1) / 2 ≠ pos := by
        intro hc
        have : j = 2 * pos + 1 ∨ j = 2 * pos + 2 := by omega
        simp only [List.length_set] at hj
        omega
      exact hH j hj hj0 hjpos hjchild
    · exact hG
    · trivial

/-- `BinaryHeap::push` preserves the heap invariant, adds exactly the pushed
element, and grows the heap by one. -/
lemma heapPush_spec (l : List EventContainer) (x : EventContainer) (hl : IsHeap l) :
    IsHeap (heapPush l x) ∧
    ((heapPush l x : List EventContainer) : Multiset EventContainer) =
      (l : Multiset EventContainer) + {x} ∧
    (heapPush l x).length = l.length + 1 := by
  have hlen : l.length < (l ++ [x]).length := by simp
  have hV : (l ++ [x]).set l.length x = l ++ [x] := by
    have hs := set_lget_self (l ++ [x]) l.length (by simp)
    rw [lget_concat_self] at hs
    exact hs
  refine ⟨?_, ?_, ?_⟩
  · apply siftUpLoop_heap x l.length (l ++ [x]) l.length (le_refl _) hlen
    · rw [hV]
      intro j hj hj0 hjne
      simp only [List.length_append, List.length_cons, List.length_nil] at hj
      have hjlt : j < l.length := by omega
      rw [lget_append_left _ _ _ hjlt, lget_append_left _ _ _ (by omega)]
      exact hl j hjlt hj0
    · rw [hV]
      intro hn0 j hj hpj
      simp only [List.length_append, List.length_cons, List.length_nil] at hj
      omega
  · have hms := siftUpLoop_ms x 0 l.length (l ++ [x]) l.length hlen
    rw [lget_concat_self] at hms
    have : ((l ++ [x] : List EventContainer) : Multiset EventContainer) =
        (l : Multiset EventContainer) + {x} := rfl
    rw [this] at hms
    exact add_right_cancel hms
  · rw [heapPush, siftUpLoop_length]
    simp

/-- `BinaryHeap::pop` on a heap: `none` exactly on the empty heap; otherwise
it removes precisely the root, which has minimal fire time, and returns a
heap again. -/
lemma heapPop_spec (l : List EventContainer) (hl : IsHeap l) :
    (heapPop l = none → l = []) ∧
    (∀ e l', heapPop l = some (e, l') →
      IsHeap l' ∧
      (l : Multiset EventContainer) = e ::ₘ (l' : Multiset EventContainer) ∧
      l'.length + 1 = l.length ∧
      ∀ y ∈ l, e.time ≤ y.time) := by
  match l with
  | [] => exact ⟨fun _ => rfl, fun e l' h => by simp [heapPop] at h⟩
  | a :: t =>
    refine ⟨fun h => by simp only [heapPop] at h; split at h <;> simp at h, ?_⟩
    intro e l' h
    rcases ht : t with _ | ⟨b, t2⟩
    · subst ht
      simp only [heapPop, List.dropLast_single, List.isEmpty_nil, if_true] at h
      obtain ⟨he, hl'⟩ := Prod.mk.injEq .. ▸ Option.some.injEq .. ▸ h
      have he2 : e = a := by
        rw [← he]; rfl
      subst he2
      subst hl'
      refine ⟨?_, by rfl, by rfl, ?_⟩
      · intro j hj; simp at hj
      · intro y hy
        simp only [List.mem_singleton] at hy
        subst hy
        exact le_rfl
    · subst ht
      -- the general case: at least two elements
      set L : List EventContainer := a :: b :: t2 with hL
      have hLne : L ≠ [] := by simp [hL]
      have hlen2 : 2 ≤ L.length := by simp [hL]
      have hrest : L.dropLast.length = L.length - 1 := by
        simp [List.length_dropLast]
      have hrestne : ¬ L.dropLast.isEmpty := by
        rcases he : L.dropLast with _ | _
        · have := congrArg List.length he
          simp [hrest] at this
          omega
        · simp [he]
      have hpop : heapPop L = some (lget L.dropLast 0,
          siftDownToBottom (L.dropLast.set 0 (lget L (L.length - 1))) 0) := by
        simp only [heapPop, hrestne, if_false, Bool.false_eq_true]
      rw [hpop] at h
      obtain ⟨he, hl'⟩ := Prod.mk.injEq .. ▸ Option.some.injEq .. ▸ h
      -- abbreviations
      have hitem_last : lget L (L.length - 1) = L.getLast hLne := by
        rw [lget_eq_getElem _ _ (by omega), List.getLast_eq_getElem]
      have hsplit : L.dropLast ++ [lget L (L.length - 1)] = L := by
        rw [hitem_last]
        exact List.dropLast_append_getLast hLne
      have hl2len : (L.dropLast.set 0 (lget L (L.length - 1))).length =
          L.length - 1 := by
        simp [List.length_set, hrest]
      have h0rest : 0 < L.dropLast.length := by omega
      -- the swapped array is a heap except at the root hole
      have hH : HeapExceptHole
          (L.dropLast.set 0 (lget L (L.length - 1))) 0 := by
        intro j hj hj0 _ hpj
        simp only [List.length_set] at hj
        rw [lget_set_ne _ _ _ _ (fun hc => hj0 hc.symm),
          lget_set_ne _ _ _ _ (fun hc => hpj hc.symm),
          lget_dropLast _ _ (by omega), lget_dropLast _ _ (by omega)]
        exact hl j (by omega) hj0
      have hG : GuardHole (L.dropLast.set 0 (lget L (L.length - 1))) 0 :=
        fun h0 => absurd rfl h0
      have hsetself :
          (L.dropLast.set 0 (lget L (L.length - 1))).set 0
              (lget (L.dropLast.set 0 (lget L (L.length - 1))) 0) =
            L.dropLast.set 0 (lget L (L.length - 1)) :=
        set_lget_self _ _ (by omega)
      have hx0 : lget (L.dropLast.set 0 (lget L (L.length - 1))) 0 =
          lget L (L.length - 1) := lget_set_self _ _ _ h0rest
      obtain ⟨r1, r2, r3, r4, r5, r6, r7⟩ :=
        siftDownLoop_spec (lget (L.dropLast.set 0 (lget L (L.length - 1))) 0)
          (L.dropLast.set 0 (lget L (L.length - 1))).length
          (L.dropLast.set 0 (lget L (L.length - 1))).length
          (L.dropLast.set 0 (lget L (L.length - 1))) 0 (by omega) rfl (by omega)
          (hsetself.symm ▸ hH) (hsetself.symm ▸ hG)
      -- the final sift-up
      have hfinal_heap : IsHeap (siftDownToBottom
          (L.dropLast.set 0 (lget L (L.length - 1))) 0) := by
        rw [siftDownToBottom]
        apply siftUpLoop_heap _ _ _ _ (le_refl _) r1
        · rw [r4, hx0]
          have hss := set_lget_self _ _ r1
          rw [r4, hx0] at hss
          rw [hss]
          exact r5
        · rw [r4, hx0]
          have hss := set_lget_self _ _ r1
          rw [r4, hx0] at hss
          rw [hss]
          exact r6
      have hfinal_ms : ((siftDownToBottom
            (L.dropLast.set 0 (lget L (L.length - 1))) 0 : List EventContainer) :
          Multiset EventContainer) =
          ((L.dropLast.set 0 (lget L (L.length - 1)) : List EventContainer) :
            Multiset EventContainer) := by
        rw [siftDownToBottom]
        have hms := siftUpLoop_ms
          (lget (siftDownLoop (lget (L.dropLast.set 0 (lget L (L.length - 1))) 0)
            (L.dropLast.set 0 (lget L (L.length - 1))).length
            (L.dropLast.set 0 (lget L (L.length - 1))).length
            (L.dropLast.set 0 (lget L (L.length - 1))) 0).1
            (siftDownLoop (lget (L.dropLast.set 0 (lget L (L.length - 1))) 0)
            (L.dropLast.set 0 (lget L (L.length - 1))).length
            (L.dropLast.set 0 (lget L (L.length - 1))).length
            (L.dropLast.set 0 (lget L (L.length - 1))) 0).2) 0
          (siftDownLoop (lget (L.dropLast.set 0 (lget L (L.length - 1))) 0)
            (L.dropLast.set 0 (lget L (L.length - 1))).length
            (L.dropLast.set 0 (lget L (L.length - 1))).length
            (L.dropLast.set 0 (lget L (L.length - 1))) 0).2 _ _ r1
        rw [r4, hx0] at hms
        rw [r4, hx0]
        have := add_right_cancel hms
        rw [hx0] at r7
        rw [this, r7]
        have hss := hsetself
        rw [hx0] at hss
        rw [hss]
      have hfinal_len : (siftDownToBottom
          (L.dropLast.set 0 (lget L (L.length - 1))) 0).length = L.length - 1 := by
        rw [siftDownToBottom, siftUpLoop_length, r2, hl2len]
      subst hl'
      subst he
      refine ⟨hfinal_heap, ?_, by omega, ?_⟩
      · rw [hfinal_ms]
        have hms2 := ms_set L.dropLast 0 (lget L (L.length - 1)) h0rest
        have hcoe : (L : Multiset EventContainer) =
            ((L.dropLast : List EventContainer) : Multiset EventContainer) +
              {lget L (L.length - 1)} := by
          conv_lhs => rw [← hsplit]
          rfl
        rw [hcoe, ← hms2]
        rw [← Multiset.singleton_add]
        abel
      · intro y hy
        have hroot : lget L.dropLast 0 = lget L 0 := lget_dropLast _ _ (by omega)
        rw [hroot]
        obtain ⟨i, hi, rfl⟩ := List.mem_iff_getElem.mp hy
        rw [← lget_eq_getElem _ _ hi]
        exact hl.root_le i hi

/-- `EventTime` from `event.rs`: an absolute fire time or a delta from
now. -/
inductive EventTime where
  | Absolute (t : Nat)
  | Delta (t : Nat)
deriving DecidableEq, Repr

/-- `EventContainer::abs_time`: resolve an `EventTime` against now. -/
def abs_time (now : Nat) : EventTime → Nat
  | .Absolute t => t
  | .Delta t => now + t

/-- The dynamic behaviour of the trait objects the executor drives.  Events
are opaque tags; `eventTime` is the event's `time()` method, `execEvent` its
`exec` (over the borrowed topology, returning follow-up events or an error),
and `pollNodes` the combined effect of one poll phase over the topology's
active nodes (whose errors the source discards via `.ok()`). -/
structure SimEnv (τ : Type) where
  eventTime : Nat → EventTime
  execEvent : Nat → Nat → τ → Except String (List Nat × τ)
  pollNodes : Nat → τ → List Nat × τ

/-- `push_onto` from `event.rs`: resolve the event's time against now and
push the container onto the heap. -/
def push_onto {τ : Type} (env : SimEnv τ) (now : Nat) (ev : Nat)
    (heap : List EventContainer) : List EventContainer :=
  heapPush heap ⟨ev, abs_time now (env.eventTime ev)⟩

/-- The `Executor` state from `event.rs` (logger omitted). -/
structure Executor (τ : Type) where
  events : List EventContainer
  current_time : Nat
  topology : τ

/-- `Executor::push`. -/
def Executor.push {τ : Type} (env : SimEnv τ) (s : Executor τ) (ev : Nat) :
    Executor τ :=
  { s with events := push_onto env s.current_time ev s.events }

/-- `Executor::poll_nodes`: run every active node's `exec` at the current
time and push the returned events. -/
def poll_nodes {τ : Type} (env : SimEnv τ) (s : Executor τ) : Executor τ :=
  { s with
    topology := (env.pollNodes s.current_time s.topology).2,
    events := (env.pollNodes s.current_time s.topology).1.foldl
      (fun h ev => push_onto env s.current_time ev h) s.events }

/-- `Executor::execute`, fuel-bounded.  Returns the list of fired event
containers (the trace, in firing order) together with the final state or the
aborting error.  Faithful to the source loop: pop; assert the popped time is
not in the past; if it is strictly in the future, push it back, run a poll
phase and pop again (without re-asserting); advance `current_time` to the
fired event's time; run the event, pushing its follow-ups. -/
def executeLoop {τ : Type} (env : SimEnv τ) :
    Nat → Executor τ → List EventContainer →
    List EventContainer × Except String (Executor τ)
  | 0, _, tr => (tr, .error "out of fuel")
  | fuel + 1, s, tr =>
    match heapPop s.events with
    | none =>
      let s' := poll_nodes env s
      if s'.events.isEmpty then (tr, .ok s')
      else executeLoop env fuel s' tr
    | some (evc, rest) =>
      if evc.time < s.current_time then
        (tr, .error "assert failed: event time before current time")
      else
        match
          (if s.current_time < evc.time then
            match heapPop (poll_nodes env { s with events := heapPush rest evc }).events with
            | none => none
            | some (e2, r2) =>
              some (e2, { (poll_nodes env { s with events := heapPush rest evc }) with
                events := r2 })
          else some (evc, { s with events := rest })) with
        | none => (tr, .error "pop().unwrap() failed")
        | some (e2, s2) =>
          let s3 : Executor τ := { s2 with current_time := e2.time }
          match env.execEvent s3.current_time e2.ev s3.topology with
          | .error msg => (tr ++ [e2], .error msg)
          | .ok r =>
            executeLoop env fuel
              { s3 with
                topology := r.2
                events := r.1.foldl
                  (fun h ev => push_onto env s3.current_time ev h) s3.events }
              (tr ++ [e2])

/-- Every event the poll phase schedules resolves to a time at or after the
poll instant.  This holds for the simulator's nodes: hosts and switches only
ever return `NodeTransmitEvent`s, whose `time()` is a `Delta`. -/
def PollOk {τ : Type} (env : SimEnv τ) : Prop :=
  ∀ now top, ∀ tag ∈ (env.pollNodes now top).1,
    now ≤ abs_time now (env.eventTime tag)

lemma heapPush_ms (l : List EventContainer) (x : EventContainer) :
    ((heapPush l x : List EventContainer) : Multiset EventContainer) =
      (l : Multiset EventContainer) + {x} := by
  have hlen : l.length < (l ++ [x]).length := by simp
  have hms := siftUpLoop_ms x 0 l.length (l ++ [x]) l.length hlen
  rw [lget_concat_self] at hms
  have hc : ((l ++ [x] : List EventContainer) : Multiset EventContainer) =
      (l : Multiset EventContainer) + {x} := rfl
  rw [hc] at hms
  exact add_right_cancel hms

lemma mem_heapPush (l : List EventContainer) (x y : EventContainer) :
    y ∈ heapPush l x ↔ y ∈ l ∨ y = x := by
  rw [← Multiset.mem_coe, heapPush_ms]
  simp

lemma foldl_push_isHeap {τ : Type} (env : SimEnv τ) (now : Nat) :
    ∀ (tags : List Nat) (h : List EventContainer), IsHeap h →
    IsHeap (tags.foldl (fun acc tag => push_onto env now tag acc) h) := by
  intro tags
  induction tags with
  | nil => intro h hh; exact hh
  | cons tag rest ih =>
    intro h hh
    exact ih _ (heapPush_spec h _ hh).1

lemma foldl_push_mem {τ : Type} (env : SimEnv τ) (now : Nat) :
    ∀ (tags : List Nat) (h : List EventContainer) (y : EventContainer),
    y ∈ tags.foldl (fun acc tag => push_onto env now tag acc) h →
    y ∈ h ∨ ∃ tag ∈ tags, y = ⟨tag, abs_time now (env.eventTime tag)⟩ := by
  intro tags
  induction tags with
  | nil => intro h y hy; exact Or.inl hy
  | cons tag rest ih =>
    intro h y hy
    rcases ih _ y hy with hmem | ⟨t2, ht2, rfl⟩
    · rcases (mem_heapPush _ _ _).mp hmem with hmem2 | rfl
      · exact Or.inl hmem2
      · exact Or.inr ⟨tag, by simp, rfl⟩
    · exact Or.inr ⟨t2, by simp [ht2], rfl⟩

lemma heapPop_mem (l : List EventContainer) (hl : IsHeap l)
    (e : EventContainer) (l' : List EventContainer)
    (h : heapPop l = some (e, l')) : ∀ y ∈ l', y ∈ l := by
  intro y hy
  have hms := ((heapPop_spec l hl).2 e l' h).2.1
  rw [← Multiset.mem_coe, hms]
  exact Multiset.mem_cons_of_mem (Multiset.mem_coe.mpr hy)

lemma chain_snoc_mono {A : List Nat} {c t : Nat}
    (h : List.Chain' (· ≤ ·) (A ++ [c])) (hct : c ≤ t) :
    List.Chain' (· ≤ ·) (A ++ [t]) := by
  rw [List.chain'_append] at h ⊢
  refine ⟨h.1, List.chain'_singleton t, ?_⟩
  intro x hx y hy
  simp only [List.head?_cons, Option.mem_def, Option.some.injEq] at hy
  subst hy
  exact le_trans (h.2.2 x hx c (by simp)) hct

lemma chain_snoc_two {A : List Nat} {c t : Nat}
    (h : List.Chain' (· ≤ ·) (A ++ [c])) (hct : c ≤ t) :
    List.Chain' (· ≤ ·) ((A ++ [t]) ++ [t]) := by
  rw [List.chain'_append]
  refine ⟨chain_snoc_mono h hct, List.chain'_singleton t, ?_⟩
  intro x hx y hy
  simp only [List.head?_cons, Option.mem_def, Option.some.injEq] at hy
  subst hy
  simp only [List.getLast?_concat, Option.mem_def, Option.some.injEq] at hx
  omega

/-- C2.  Simulated time is non-decreasing: whatever events are pushed and
whatever the nodes do (provided poll-phase events resolve at or after the
poll instant, as every node in this simulator guarantees by returning
`Delta` events), the times of fired events form a non-decreasing sequence,
the final `current_time` is at least every fired time and at least the
starting `current_time`, and every fired event fires no earlier than the
`current_time` at entry. -/
theorem C2_executor_time_monotone {τ : Type} (env : SimEnv τ) (hpoll : PollOk env) :
    ∀ (fuel : Nat) (s : Executor τ) (tr : List EventContainer),
    IsHeap s.events →
    List.Chain' (· ≤ ·) (tr.map EventContainer.time ++ [s.current_time]) →
    List.Chain' (· ≤ ·) ((executeLoop env fuel s tr).1.map EventContainer.time ++
        (match (executeLoop env fuel s tr).2 with
         | .ok s' => [s'.current_time]
         | .error _ => [])) ∧
    (∀ s', (executeLoop env fuel s tr).2 = .ok s' →
      s.current_time ≤ s'.current_time) ∧
    (∀ e ∈ (executeLoop env fuel s tr).1, e ∈ tr ∨ s.current_time ≤ e.time) := by
  intro fuel
  induction fuel with
  | zero =>
    intro s tr hheap hchain
    refine ⟨?_, ?_, ?_⟩
    · simp only [executeLoop]
      simpa using hchain.sublist (List.sublist_append_left _ _)
    · intro s' h; exact absurd h (by simp [executeLoop])
    · intro e he; exact Or.inl (by simpa [executeLoop] using he)
  | succ fuel ih =>
    intro s tr hheap hchain
    rcases hpop : heapPop s.events with _ | ⟨evc, rest⟩
    · -- empty heap: final poll, then either quiesce or continue
      have hnil : s.events = [] := (heapPop_spec s.events hheap).1 hpop
      have hpheap : IsHeap (poll_nodes env s).events :=
        foldl_push_isHeap env s.current_time _ _ hheap
      have hpcur : (poll_nodes env s).current_time = s.current_time := rfl
      by_cases hemp : (poll_nodes env s).events.isEmpty
      · refine ⟨?_, ?_, ?_⟩
        · simp only [executeLoop, hpop, hemp, if_true]
          exact hchain
        · intro s' h
          simp only [executeLoop, hpop, hemp, if_true, Except.ok.injEq] at h
          subst h
          exact le_rfl
        · intro e he
          simp only [executeLoop, hpop, hemp, if_true] at he
          exact Or.inl he
      · have hrec := ih (poll_nodes env s) tr hpheap (by rw [hpcur]; exact hchain)
        refine ⟨?_, ?_, ?_⟩
        · simp only [executeLoop, hpop, hemp, if_false, Bool.false_eq_true]
          exact hrec.1
        · intro s' h
          simp only [executeLoop, hpop, hemp, if_false, Bool.false_eq_true] at h
          exact hrec.2.1 s' h
        · intro e he
          simp only [executeLoop, hpop, hemp, if_false, Bool.false_eq_true] at he
          exact hrec.2.2 e he
    · obtain ⟨hrheap, hmseq, hlen1, hminall⟩ :=
        (heapPop_spec s.events hheap).2 evc rest hpop
      by_cases hassert : evc.time < s.current_time
      · -- the source aborts via assert!
        refine ⟨?_, ?_, ?_⟩
        · simp only [executeLoop, hpop, if_pos hassert]
          simpa using hchain.sublist (List.sublist_append_left _ _)
        · intro s' h
          simp only [executeLoop, hpop, if_pos hassert] at h
          exact Except.noConfusion h
        · intro e he
          simp only [executeLoop, hpop, if_pos hassert] at he
          exact Or.inl he
      · by_cases hlt : s.current_time < evc.time
        · -- future event: push back, poll, pop again, then fire
          have hspheap :
              IsHeap (poll_nodes env { s with events := heapPush rest evc }).events :=
            foldl_push_isHeap env s.current_time _ _
              (heapPush_spec rest evc hrheap).1
          rcases hpop2 : heapPop
              (poll_nodes env { s with events := heapPush rest evc }).events with
            _ | ⟨e2, r2⟩
          · refine ⟨?_, ?_, ?_⟩
            · simp only [executeLoop, hpop, if_neg hassert, if_pos hlt, hpop2]
              simpa using hchain.sublist (List.sublist_append_left _ _)
            · intro s' h
              simp only [executeLoop, hpop, if_neg hassert, if_pos hlt, hpop2] at h
              exact Except.noConfusion h
            · intro e he
              simp only [executeLoop, hpop, if_neg hassert, if_pos hlt, hpop2] at he
              exact Or.inl he
          · obtain ⟨hr2heap, hms2, hlen2, hmin2⟩ :=
              (heapPop_spec _ hspheap).2 e2 r2 hpop2
            have he2mem : e2 ∈
                (poll_nodes env { s with events := heapPush rest evc }).events := by
              rw [← Multiset.mem_coe, hms2]
              exact Multiset.mem_cons_self _ _
            have hcur : s.current_time ≤ e2.time := by
              rcases foldl_push_mem env s.current_time _ _ e2 he2mem with
                hmem | ⟨tag, htag, rfl⟩
              · rcases (mem_heapPush rest evc e2).mp hmem with hmem2 | rfl
                · have := hminall e2
                    (heapPop_mem s.events hheap evc rest hpop e2 hmem2)
                  omega
                · omega
              · exact hpoll s.current_time _ tag htag
            rcases hexec : env.execEvent e2.time e2.ev
                (poll_nodes env { s with events := heapPush rest evc }).topology with
              msg | r
            · refine ⟨?_, ?_, ?_⟩
              · simp only [executeLoop, hpop, if_neg hassert, if_pos hlt, hpop2, hexec]
                simpa using chain_snoc_mono hchain hcur
              · intro s' h
                simp only [executeLoop, hpop, if_neg hassert, if_pos hlt, hpop2,
                  hexec] at h
                exact Except.noConfusion h
              · intro e he
                simp only [executeLoop, hpop, if_neg hassert, if_pos hlt, hpop2,
                  hexec] at he
                rcases (List.mem_append.mp he) with he1 | he2
                · exact Or.inl he1
                · simp only [List.mem_singleton] at he2
                  subst he2
                  exact Or.inr hcur
            · have hrec := ih
                { current_time := e2.time, topology := r.2,
                  events := r.1.foldl
                    (fun h ev => push_onto env e2.time ev h) r2 }
                (tr ++ [e2])
                (foldl_push_isHeap env e2.time _ _ hr2heap)
                (by
                  simp only [List.map_append, List.map_cons, List.map_nil]
                  exact chain_snoc_two hchain hcur)
              refine ⟨?_, ?_, ?_⟩
              · simp only [executeLoop, hpop, if_neg hassert, if_pos hlt, hpop2, hexec]
                exact hrec.1
              · intro s' h
                simp only [executeLoop, hpop, if_neg hassert, if_pos hlt, hpop2,
                  hexec] at h
                exact le_trans hcur (hrec.2.1 s' h)
              · intro e he
                simp only [executeLoop, hpop, if_neg hassert, if_pos hlt, hpop2,
                  hexec] at he
                rcases hrec.2.2 e he with hin | hge
                · rcases List.mem_append.mp hin with he1 | he2
                  · exact Or.inl he1
                  · simp only [List.mem_singleton] at he2
                    subst he2
                    exact Or.inr hcur
                · exact Or.inr (le_trans hcur hge)
        · -- event at the current instant: fire it directly
          have hcur : s.current_time ≤ evc.time := by omega
          rcases hexec : env.execEvent evc.time evc.ev s.topology with msg | r
          · refine ⟨?_, ?_, ?_⟩
            · simp only [executeLoop, hpop, if_neg hassert, if_neg hlt, hexec]
              simpa using chain_snoc_mono hchain hcur
            · intro s' h
              simp only [executeLoop, hpop, if_neg hassert, if_neg hlt, hexec] at h
              exact Except.noConfusion h
            · intro e he
              simp only [executeLoop, hpop, if_neg hassert, if_neg hlt, hexec] at he
              rcases (List.mem_append.mp he) with he1 | he2
              · exact Or.inl he1
              · simp only [List.mem_singleton] at he2
                subst he2
                exact Or.inr hcur
          · have hrec := ih
              { current_time := evc.time, topology := r.2,
                events := r.1.foldl
                  (fun h ev => push_onto env evc.time ev h) rest }
              (tr ++ [evc])
              (foldl_push_isHeap env evc.time _ _ hrheap)
              (by
                simp only [List.map_append, List.map_cons, List.map_nil]
                exact chain_snoc_two hchain hcur)
            refine ⟨?_, ?_, ?_⟩
            · simp only [executeLoop, hpop, if_neg hassert, if_neg hlt, hexec]
              exact hrec.1
            · intro s' h
              simp only [executeLoop, hpop, if_neg hassert, if_neg hlt, hexec] at h
              exact le_trans hcur (hrec.2.1 s' h)
            · intro e he
              simp only [executeLoop, hpop, if_neg hassert, if_neg hlt, hexec] at he
              rcases hrec.2.2 e he with hin | hge
              · rcases List.mem_append.mp hin with he1 | he2
                · exact Or.inl he1
                · simp only [List.mem_singleton] at he2
                  subst he2
                  exact Or.inr hcur
              · exact Or.inr (le_trans hcur hge)

/-- A trivial environment used to instantiate the executor theorems: one
single `Delta 5` event kind, no follow-up events, nothing to poll. -/
def trivEnv : SimEnv Unit :=
  ⟨fun _ => .Delta 5, fun _ _ t => .ok ([], t), fun _ t => ([], t)⟩

/-- A one-event executor state for the C2 witness. -/
def trivExec : Executor Unit := ⟨[⟨0, 5⟩], 0, ()⟩

/-- C2 witness: the monotonicity theorem instantiated on a concrete
one-event simulation. -/
theorem C2_witness :
    List.Chain' (· ≤ ·)
      ((executeLoop trivEnv 3 trivExec []).1.map EventContainer.time ++
        (match (executeLoop trivEnv 3 trivExec []).2 with
         | .ok s' => [s'.current_time]
         | .error _ => [])) ∧
    (∀ s', (executeLoop trivEnv 3 trivExec []).2 = .ok s' →
      trivExec.current_time ≤ s'.current_time) ∧
    (∀ e ∈ (executeLoop trivEnv 3 trivExec []).1,
      e ∈ ([] : List EventContainer) ∨ trivExec.current_time ≤ e.time) :=
  C2_executor_time_monotone trivEnv
    (fun _ _ tag h => absurd h (List.not_mem_nil tag)) 3 trivExec []
    (by decide) (by simp)

/-- Four events with identical absolute fire time 5, pushed in tag order
0, 1, 2, 3, as a scenario would push them before `execute()`. -/
def c3Env : SimEnv Unit :=
  ⟨fun _ => .Absolute 5, fun _ _ t => .ok ([], t), fun _ t => ([], t)⟩

/-- The executor state after pushing tags 0, 1, 2, 3 in that order. -/
def c3Start : Executor Unit :=
  Executor.push c3Env
    (Executor.push c3Env
      (Executor.push c3Env
        (Executor.push c3Env ⟨[], 0, ()⟩ 0) 1) 2) 3

/-- C3 counterexample.  Four events pushed in order 0, 1, 2, 3 with equal
resolved fire time 5 execute in order 2, 3, 1, 0: `EventContainer`'s `Ord`
compares only the time, the standard binary heap is not insertion-stable,
and the executor's push-back-then-re-pop for future events shuffles equal
keys further, so ties are NOT broken in FIFO order. -/
theorem C3_counterexample :
    (executeLoop c3Env 12 c3Start []).1.map EventContainer.ev = [2, 3, 1, 0] ∧
    (executeLoop c3Env 12 c3Start []).1.map EventContainer.time = [5, 5, 5, 5] ∧
    (executeLoop c3Env 12 c3Start []).1.map EventContainer.ev ≠ [0, 1, 2, 3] := by
  refine ⟨by decide, by decide, by decide⟩

/-- C3 amended.  What the event queue does guarantee: `push` preserves the
heap-shape invariant and adds exactly the pushed container, and `pop` on a
heap removes exactly one container whose fire time is minimal among all
pending events, leaving a heap.  Events with equal fire times may therefore
pop in any order (not necessarily insertion order), but never before an
earlier-timed event. -/
theorem C3_amended_heap_order :
    (∀ (l : List EventContainer) (x : EventContainer), IsHeap l →
      IsHeap (heapPush l x) ∧
      ((heapPush l x : List EventContainer) : Multiset EventContainer) =
        (l : Multiset EventContainer) + {x}) ∧
    (∀ l : List EventContainer, IsHeap l →
      ∀ e l', heapPop l = some (e, l') →
        IsHeap l' ∧
        (l : Multiset EventContainer) =
          e ::ₘ (l' : Multiset EventContainer) ∧
        (∀ y ∈ l, e.time ≤ y.time)) := by
  constructor
  · intro l x hl
    exact ⟨(heapPush_spec l x hl).1, heapPush_ms l x⟩
  · intro l hl e l' h
    obtain ⟨h1, h2, _, h4⟩ := (heapPop_spec l hl).2 e l' h
    exact ⟨h1, h2, h4⟩

/-- C3 amended witness: push and pop on concrete two-element heaps. -/
theorem C3_amended_witness :
    (IsHeap (heapPush [⟨0, 5⟩] ⟨1, 7⟩) ∧
      ((heapPush [⟨0, 5⟩] ⟨1, 7⟩ : List EventContainer) : Multiset EventContainer) =
        (([⟨0, 5⟩] : List EventContainer) : Multiset EventContainer) + {⟨1, 7⟩}) ∧
    (IsHeap [(⟨1, 7⟩ : EventContainer)] ∧
      (([⟨0, 5⟩, ⟨1, 7⟩] : List EventContainer) : Multiset EventContainer) =
        (⟨0, 5⟩ : EventContainer) ::ₘ
          (([⟨1, 7⟩] : List EventContainer) : Multiset EventContainer) ∧
      ∀ y ∈ [(⟨0, 5⟩ : EventContainer), ⟨1, 7⟩],
        (⟨0, 5⟩ : EventContainer).time ≤ y.time) :=
  ⟨C3_amended_heap_order.1 [⟨0, 5⟩] ⟨1, 7⟩ (by decide),
   C3_amended_heap_order.2 [⟨0, 5⟩, ⟨1, 7⟩] (by decide) ⟨0, 5⟩ [⟨1, 7⟩] (by decide)⟩

/-- The `blocked_flows` `HashMap<u32, u32>` (flow id to next expected
seqno), as a key-unique association list: `HashMap::get`. -/
def bfGet (m : List (Nat × Nat)) (k : Nat) : Option Nat :=
  (m.find? (fun e => e.1 == k)).map Prod.snd

/-- `HashMap::insert`. -/
def bfInsert (m : List (Nat × Nat)) (k v : Nat) : List (Nat × Nat) :=
  m.filter (fun e => e.1 != k) ++ [(k, v)]

/-- `HashMap::remove`. -/
def bfRemove (m : List (Nat × Nat)) (k : Nat) : List (Nat × Nat) :=
  m.filter (fun e => e.1 != k)

/-- The `NackSwitch` state from `node/switch/nack_switch.rs`. -/
structure NackSwitch where
  id : Nat
  active : Bool
  rack : List DropTailQueue
  core : List DropTailQueue
  blocked_flows : List (Nat × Nat)
deriving DecidableEq, Repr

/-- The discard closure `NackSwitch::receive` passes to `discard_matching`
after a data drop: queued `Data` of the same flow with a seq strictly above
the dropped one. -/
def nackDiscard (flow_id_to_drop dropped_seq : Nat) : Packet → Bool
  | .Data hdr seq _ => hdr.flow == flow_id_to_drop && decide (dropped_seq < seq)
  | _ => false

/-- The `Packet::Data` tail of `NackSwitch::receive`, after the blocked-flow
check: find the rack queue toward `hdr.to` (`unimplemented!()` if absent) and
try to enqueue.  On a drop: record `blocked_flows[flow] = seq`, discard the
flow's newer queued packets from that same queue, synthesise the `Nack` with
source and destination swapped, and enqueue it toward the source through
`.unwrap()` calls that abort on a missing queue or a second drop. -/
def NackSwitch.forward (sw : NackSwitch) (hdr : PacketHeader) (seq len : Nat) :
    Except String NackSwitch :=
  match sw.rack.findIdx? (fun q => q.link.to_ == hdr.to_) with
  | none => .error "unimplemented: no rack queue toward hdr.to"
  | some i =>
    match (DropTailQueue.enqueue (sw.rack.getD i default) (.Data hdr seq len)).1 with
    | some _ =>
      .ok { sw with rack := (sw.rack.set i
        (DropTailQueue.enqueue (sw.rack.getD i default) (.Data hdr seq len)).2) }
    | none =>
      match (sw.rack.set i
          (DropTailQueue.discard_matching (sw.rack.getD i default)
            (nackDiscard hdr.flow seq)).2).findIdx?
          (fun q => q.link.to_ == hdr.from_) with
      | none => .error "unwrap failed: no rack queue toward hdr.from"
      | some j =>
        match (DropTailQueue.enqueue ((sw.rack.set i
            (DropTailQueue.discard_matching (sw.rack.getD i default)
              (nackDiscard hdr.flow seq)).2).getD j default)
            (.Nack ⟨hdr.flow, hdr.to_, hdr.from_⟩ seq)).1 with
        | none => .error "unwrap failed: nack enqueue dropped"
        | some _ =>
          .ok { sw with
            blocked_flows := bfInsert sw.blocked_flows hdr.flow seq
            rack := ((sw.rack.set i
              (DropTailQueue.discard_matching (sw.rack.getD i default)
                (nackDiscard hdr.flow seq)).2).set j
              (DropTailQueue.enqueue ((sw.rack.set i
                (DropTailQueue.discard_matching (sw.rack.getD i default)
                  (nackDiscard hdr.flow seq)).2).getD j default)
                (.Nack ⟨hdr.flow, hdr.to_, hdr.from_⟩ seq)).2) }

/-- `NackSwitch::receive` (logging elided; `unimplemented!()`,
`unreachable!()` and `.unwrap()` aborts surface as `Except.error`).  On
success the source always returns an empty event vector, so only the updated
switch state is returned.  `Pause`/`Resume` are ignored, `Ack`/`Nack` are
forwarded toward `hdr.to` with silent drop, and `Data` runs the blocked-flow
pre-drop check before `forward`. -/
def NackSwitch.receive (sw0 : NackSwitch) (p : Packet) :
    Except String NackSwitch :=
  let sw := { sw0 with active := true }
  match p with
  | .Pause _ _ => .ok sw
  | .Resume _ _ => .ok sw
  | .Nack hdr _ =>
    match sw.rack.findIdx? (fun q => q.link.to_ == hdr.to_) with
    | none => .error "unimplemented: no rack queue toward hdr.to"
    | some i =>
      .ok { sw with rack := (sw.rack.set i
        (DropTailQueue.enqueue (sw.rack.getD i default) p).2) }
  | .Ack hdr _ =>
    match sw.rack.findIdx? (fun q => q.link.to_ == hdr.to_) with
    | none => .error "unimplemented: no rack queue toward hdr.to"
    | some i =>
      .ok { sw with rack := (sw.rack.set i
        (DropTailQueue.enqueue (sw.rack.getD i default) p).2) }
  | .Data hdr seq len =>
    match bfGet sw.blocked_flows hdr.flow with
    | some next_expected_seq =>
      if seq = next_expected_seq then
        NackSwitch.forward
          { sw with blocked_flows := bfRemove sw.blocked_flows hdr.flow }
          hdr seq len
      else .ok sw
    | none => NackSwitch.forward sw hdr seq len

lemma DropTailQueue.enqueue_accepts (q : DropTailQueue) (p : Packet)
    (h : (DropTailQueue.enqueue q p).1 = some ()) :
    (DropTailQueue.enqueue q p).2 =
      { q with pkts := q.pkts ++ [p], active := true } := by
  by_cases hc : q.occupancy_bytes + p.get_size_bytes > q.limit_bytes
  · simp [DropTailQueue.enqueue, hc] at h
  · simp [DropTailQueue.enqueue, hc]

lemma bfGet_bfInsert (m : List (Nat × Nat)) (k v : Nat) :
    bfGet (bfInsert m k v) k = some v := by
  unfold bfGet bfInsert
  induction m with
  | nil => simp
  | cons a t ih =>
    by_cases h : a.1 = k
    · simpa [List.filter_cons, h] using ih
    · simpa [List.filter_cons, h, List.find?_cons] using ih

/-- An egress link of the C4 switch (id 9) toward `dst`. -/
def c4link (dst : Nat) : Link := ⟨0, 0, false, 9, dst⟩

/-- C4 counterexample state: the egress queue toward node 2 is at its byte
limit, and the source-facing queue toward node 1 cannot hold even the
40-byte NACK. -/
def c4sw_full : NackSwitch :=
  { id := 9, active := false,
    rack := [⟨100, c4link 2, [.Data ⟨7, 1, 2⟩ 0 10, .Data ⟨7, 1, 2⟩ 5 10],
               none, false, false⟩,
             ⟨39, c4link 1, [], none, false, false⟩],
    core := [], blocked_flows := [] }

/-- C4 amended-witness state: as `c4sw_full` but the source-facing queue has
room for the NACK. -/
def c4sw_ok : NackSwitch :=
  { id := 9, active := false,
    rack := [⟨100, c4link 2, [.Data ⟨7, 1, 2⟩ 0 10, .Data ⟨7, 1, 2⟩ 5 10],
               none, false, false⟩,
             ⟨100, c4link 1, [], none, false, false⟩],
    core := [], blocked_flows := [] }

/-- C4 counterexample.  The claim's final clause — the synthesised NACK "is
enqueued toward the source and is never dropped" — is false: the space made
by `discard_matching` is in the egress queue toward `hdr.to`, not in the
source-facing queue the NACK goes to, and `q.enqueue(nack).unwrap()` aborts
the simulation when that queue is full.  Concretely: the data enqueue toward
node 2 fails, and `receive` then aborts instead of delivering the NACK. -/
theorem C4_counterexample :
    (DropTailQueue.enqueue (c4sw_full.rack.getD 0 default)
        (.Data ⟨7, 1, 2⟩ 3 10)).1 = none ∧
    NackSwitch.receive c4sw_full (.Data ⟨7, 1, 2⟩ 3 10) =
      .error "unwrap failed: nack enqueue dropped" :=
  ⟨rfl, by rfl⟩

/-- C4 amended: when the switch drops a `Data{flow, seq}` toward `hdr.to`
(queue `i`, flow not currently blocked), and a distinct rack queue `j`
toward `hdr.from` exists that accepts the 40-byte NACK, then `receive`
succeeds, records `blocked_flows[flow] = seq`, filters queue `i` by the
discard closure (same flow, seq strictly greater), and appends
`Nack{flow, from=hdr.to, to=hdr.from, nacked_seq=seq}` to queue `j`.
Without the acceptance hypothesis the NACK enqueue `.unwrap()` can abort
(see the counterexample), so "never dropped" holds only in the sense that a
drop aborts the whole simulation. -/
theorem C4_amended_nack_on_drop
    (sw : NackSwitch) (hdr : PacketHeader) (seq len i j : Nat)
    (hblock : bfGet sw.blocked_flows hdr.flow = none)
    (hi : sw.rack.findIdx? (fun q => q.link.to_ == hdr.to_) = some i)
    (hdrop : (DropTailQueue.enqueue (sw.rack.getD i default)
        (.Data hdr seq len)).1 = none)
    (hj : (sw.rack.set i (DropTailQueue.discard_matching (sw.rack.getD i default)
          (nackDiscard hdr.flow seq)).2).findIdx?
        (fun q => q.link.to_ == hdr.from_) = some j)
    (hok : (DropTailQueue.enqueue ((sw.rack.set i
          (DropTailQueue.discard_matching (sw.rack.getD i default)
            (nackDiscard hdr.flow seq)).2).getD j default)
        (.Nack ⟨hdr.flow, hdr.to_, hdr.from_⟩ seq)).1 = some ())
    (hij : i ≠ j) (hilen : i < sw.rack.length) (hjlen : j < sw.rack.length) :
    ∃ sw', NackSwitch.receive sw (.Data hdr seq len) = .ok sw' ∧
      bfGet sw'.blocked_flows hdr.flow = some seq ∧
      (sw'.rack.getD i default).pkts =
        (sw.rack.getD i default).pkts.filter
          (fun pk => ¬ nackDiscard hdr.flow seq pk) ∧
      (sw'.rack.getD j default).pkts =
        ((sw.rack.set i (DropTailQueue.discard_matching (sw.rack.getD i default)
            (nackDiscard hdr.flow seq)).2).getD j default).pkts ++
          [.Nack ⟨hdr.flow, hdr.to_, hdr.from_⟩ seq] := by
  have hstep : NackSwitch.receive sw (.Data hdr seq len) =
      .ok { sw with
        active := true
        blocked_flows := bfInsert sw.blocked_flows hdr.flow seq
        rack := ((sw.rack.set i (DropTailQueue.discard_matching
            (sw.rack.getD i default) (nackDiscard hdr.flow seq)).2).set j
          (DropTailQueue.enqueue ((sw.rack.set i
              (DropTailQueue.discard_matching (sw.rack.getD i default)
                (nackDiscard hdr.flow seq)).2).getD j default)
            (.Nack ⟨hdr.flow, hdr.to_, hdr.from_⟩ seq)).2) } := by
    simp only [NackSwitch.receive, NackSwitch.forward, hblock, hi, hdrop, hj, hok]
  refine ⟨_, hstep, ?_, ?_, ?_⟩
  · exact bfGet_bfInsert _ _ _
  · show ((((sw.rack.set i (DropTailQueue.discard_matching
        (sw.rack.getD i default) (nackDiscard hdr.flow seq)).2).set j
        (DropTailQueue.enqueue ((sw.rack.set i
          (DropTailQueue.discard_matching (sw.rack.getD i default)
            (nackDiscard hdr.flow seq)).2).getD j default)
          (.Nack ⟨hdr.flow, hdr.to_, hdr.from_⟩ seq)).2).getD i default)).pkts = _
    rw [List.getD_eq_getElem _ default (by simpa using hilen),
      List.getElem_set_ne (fun hc => hij hc.symm),
      List.getElem_set_self, DropTailQueue.discard_matching]
  · show ((((sw.rack.set i (DropTailQueue.discard_matching
        (sw.rack.getD i default) (nackDiscard hdr.flow seq)).2).set j
        (DropTailQueue.enqueue ((sw.rack.set i
          (DropTailQueue.discard_matching (sw.rack.getD i default)
            (nackDiscard hdr.flow seq)).2).getD j default)
          (.Nack ⟨hdr.flow, hdr.to_, hdr.from_⟩ seq)).2).getD j default)).pkts = _
    rw [List.getD_eq_getElem _ default (by simpa using hjlen),
      List.getElem_set_self, DropTailQueue.enqueue_accepts _ _ hok]

/-- C4 amended witness: the theorem instantiated on the concrete switch
whose source-facing queue has room; every hypothesis evaluates. -/
theorem C4_amended_witness :
    ∃ sw', NackSwitch.receive c4sw_ok (.Data ⟨7, 1, 2⟩ 3 10) = .ok sw' ∧
      bfGet sw'.blocked_flows 7 = some 3 ∧
      (sw'.rack.getD 0 default).pkts =
        (c4sw_ok.rack.getD 0 default).pkts.filter
          (fun pk => ¬ nackDiscard 7 3 pk) ∧
      (sw'.rack.getD 1 default).pkts =
        ((c4sw_ok.rack.set 0 (DropTailQueue.discard_matching
            (c4sw_ok.rack.getD 0 default) (nackDiscard 7 3)).2).getD 1
              default).pkts ++ [.Nack ⟨7, 2, 1⟩ 3] :=
  C4_amended_nack_on_drop c4sw_ok ⟨7, 1, 2⟩ 3 10 0 1 rfl rfl rfl rfl rfl
    (by decide) (by decide) (by decide)

end Sim
